import Mathlib

/-!
Verification development for the `mistral-ocr` command-line tool
(Go sources under `cmd/` and `pkg/mistral/`).

The Go code is shallowly embedded: the network is modelled as a function
from the attempt number to the outcome the HTTP library would report for
that attempt, and each client operation returns, besides its
result, the number of HTTP requests it performed.  JSON
(un)marshalling of response bodies is abstracted by carrying, alongside
the raw body text, the outcome Go's `encoding/json` would produce for it
(empty body / unmarshal error / extracted field).  Wall-clock sleeps
between retries are irrelevant to the claims and are dropped.
-/

/-! ## Generic string helpers -/

/-- Boolean substring test, at the level of a string's character list. -/
def substrOf (pat s : String) : Bool :=
  decide (pat.data <:+: s.data)

/-- Separator-join: `joinSep sep [a, b, c] = a ++ sep ++ b ++ sep ++ c`,
with no separator after the last element. -/
def joinSep (sep : String) : List String → String
  | [] => ""
  | [x] => x
  | x :: y :: xs => x ++ sep ++ joinSep sep (y :: xs)

/-! ## API client model (`pkg/mistral/client.go`) -/

/-- `MaxFileSize = 52 * 1024 * 1024` from `client.go`. -/
def maxFileSize : Int := 52 * 1024 * 1024

/-- `maxRetries := 3` in `UploadFile`. -/
def uploadMaxRetries : Nat := 3

/-- `maxRetries := 5` in `ProcessOCR`. -/
def ocrMaxRetries : Nat := 5

/-- Outcome of unmarshalling an upload response body into `struct { ID string }`:
the body is empty, or `json.Unmarshal` fails with some message, or it succeeds
and yields the `id` field (possibly the empty string). -/
inductive UploadBody where
  | empty : UploadBody
  | badJSON (msg : String) : UploadBody
  | withID (id : String) : UploadBody
  deriving DecidableEq

/-- What one `POST /files` attempt yields: a transport error, or an HTTP
response with a status code, raw body text (used in error messages) and
the body's parse outcome. -/
inductive UploadAttempt where
  | netErr (msg : String) : UploadAttempt
  | resp (status : Nat) (bodyText : String) (body : UploadBody) : UploadAttempt
  deriving DecidableEq

/-- Error message for an oversized file.  The Go message renders the sizes
with `%.2f` floating-point formatting; that numeric rendering is abstracted
here (no claim inspects this text). -/
def fileTooLargeMsg (size : Int) : String :=
  "file is too large (" ++ toString size ++ " bytes). Maximum allowed size is "
    ++ toString maxFileSize ++ " bytes"

/-- The retry loop of `UploadFile` (`client.go:92-146`).  `net i` is what the
`i`-th `POST /files` would return; `budget` is the remaining attempts;
`lastErr` is Go's `lastErr` variable.  Returns the result together with the
number of HTTP requests performed. -/
def uploadLoop (net : Nat → UploadAttempt) (idx : Nat) (budget : Nat)
    (lastErr : String) : Except String String × Nat :=
  match budget with
  | 0 => (Except.error ("failed to upload file after " ++ toString uploadMaxRetries
      ++ " attempts: " ++ lastErr), 0)
  | b + 1 =>
    match net idx with
    | UploadAttempt.netErr m =>
      let r := uploadLoop net (idx + 1) b ("error making upload request: " ++ m)
      (r.1, r.2 + 1)
    | UploadAttempt.resp st bodyText body =>
      if st ≠ 200 then
        let e := "API returned error status: " ++ toString st ++ " - " ++ bodyText
        if st ≥ 500 ∨ st = 429 then
          let r := uploadLoop net (idx + 1) b e
          (r.1, r.2 + 1)
        else (Except.error e, 1)
      else
        match body with
        | UploadBody.empty =>
          let r := uploadLoop net (idx + 1) b "received empty response from API"
          (r.1, r.2 + 1)
        | UploadBody.badJSON m =>
          let r := uploadLoop net (idx + 1) b ("error parsing response: " ++ m)
          (r.1, r.2 + 1)
        | UploadBody.withID id =>
          if id = "" then
            let r := uploadLoop net (idx + 1) b "received response without file ID"
            (r.1, r.2 + 1)
          else (Except.ok id, 1)

/-- `UploadFile` (`client.go:74-148`).  `statResult` is what `os.Stat`
reports: an error, or the file's size in bytes.  The size check happens
before the retry loop; on rejection the network is never consulted and the
request counter is `0`. -/
def uploadFile (statResult : Except String Int) (net : Nat → UploadAttempt) :
    Except String String × Nat :=
  match statResult with
  | Except.error e => (Except.error ("error checking file size: " ++ e), 0)
  | Except.ok size =>
    if size > maxFileSize then (Except.error (fileTooLargeMsg size), 0)
    else uploadLoop net 0 uploadMaxRetries ""

/-- Outcome of unmarshalling a `GET /files/{id}/url` body into
`struct { URL string }`.  (An empty body makes `json.Unmarshal` fail, so it
is a `badJSON` case.) -/
inductive GetURLBody where
  | badJSON (msg : String) : GetURLBody
  | withURL (url : String) : GetURLBody
  deriving DecidableEq

/-- What one `GET /files/{id}/url` attempt yields. -/
inductive GetURLAttempt where
  | netErr (msg : String) : GetURLAttempt
  | resp (status : Nat) (bodyText : String) (body : GetURLBody) : GetURLAttempt
  deriving DecidableEq

/-- `GetFileURL` (`client.go:42-71`).  There is no retry loop: exactly one
request is issued, and every failure is returned immediately. -/
def getFileURL (net : Nat → GetURLAttempt) : Except String String × Nat :=
  match net 0 with
  | GetURLAttempt.netErr m => (Except.error ("error fetching file URL: " ++ m), 1)
  | GetURLAttempt.resp st bodyText body =>
    if st ≠ 200 then
      (Except.error ("API returned error status: " ++ toString st ++ " - " ++ bodyText), 1)
    else
      match body with
      | GetURLBody.badJSON m => (Except.error ("error parsing URL response: " ++ m), 1)
      | GetURLBody.withURL u =>
        if u = "" then (Except.error "API response did not contain a URL", 1)
        else (Except.ok u, 1)

/-- Body of a `POST /ocr` response: empty, invalid JSON, or valid JSON
(`invalidJSON` carries a non-empty text that fails `json.Valid`). -/
inductive OCRBody where
  | empty : OCRBody
  | invalidJSON (text : String) : OCRBody
  | validJSON (text : String) : OCRBody
  deriving DecidableEq

/-- What one `POST /ocr` attempt yields. -/
inductive OCRAttempt where
  | netErr (msg : String) : OCRAttempt
  | resp (status : Nat) (body : OCRBody) : OCRAttempt
  deriving DecidableEq

/-- Stand-in for Go's `resp.Status()` line (e.g. "404 Not Found"), used as
the error text when a non-200 response has an empty body; the textual
status phrase is abstracted to the numeral. -/
def httpStatusLine (st : Nat) : String := toString st

/-- The body text `ProcessOCR` embeds in a non-200 error message
(`client.go:197-202`): the raw body when non-empty, else the status line. -/
def ocrErrText (st : Nat) : OCRBody → String
  | OCRBody.empty => httpStatusLine st
  | OCRBody.invalidJSON t => t
  | OCRBody.validJSON t => t

/-- The retry loop of `ProcessOCR` (`client.go:181-234`). -/
def ocrLoop (net : Nat → OCRAttempt) (idx : Nat) (budget : Nat)
    (lastErr : String) : Except String String × Nat :=
  match budget with
  | 0 => (Except.error ("failed after " ++ toString ocrMaxRetries
      ++ " attempts. Last error: " ++ lastErr), 0)
  | b + 1 =>
    match net idx with
    | OCRAttempt.netErr m =>
      let r := ocrLoop net (idx + 1) b m
      (r.1, r.2 + 1)
    | OCRAttempt.resp st body =>
      if st ≠ 200 then
        let e := "API returned error status: " ++ toString st ++ " - " ++ ocrErrText st body
        if st ≥ 500 ∨ st = 429 then
          let r := ocrLoop net (idx + 1) b e
          (r.1, r.2 + 1)
        else (Except.error e, 1)
      else
        match body with
        | OCRBody.empty =>
          let r := ocrLoop net (idx + 1) b "received empty response from API"
          (r.1, r.2 + 1)
        | OCRBody.invalidJSON _ =>
          let r := ocrLoop net (idx + 1) b "received invalid JSON response from API"
          (r.1, r.2 + 1)
        | OCRBody.validJSON t => (Except.ok t, 1)

/-- The `document` map `ProcessOCR` builds from the document type
(`client.go:153-166`): the name of the source field and its value, or
`none` for an unsupported type. -/
def documentField (docType docSource : String) : Option (String × String) :=
  if docType = "document_url" then some ("document_url", docSource)
  else if docType = "image_url" then some ("image_url", docSource)
  else none

/-- The request body `ProcessOCR` sends (`client.go:168-172`). -/
structure OCRRequest where
  model : String
  document : String × String
  includeImageBase64 : Bool
  deriving DecidableEq

/-- Building the OCR request; fails (with no request content) for an
unsupported document type. -/
def buildOCRRequest (docType docSource : String) (includeImageBase64 : Bool) :
    Option OCRRequest :=
  match documentField docType docSource with
  | none => none
  | some f => some ⟨"mistral-ocr-latest", f, includeImageBase64⟩

/-- `ProcessOCR` (`client.go:152-238`).  The document-type check happens
before the retry loop; on an unsupported type no request is made. -/
def processOCR (docType docSource : String) (includeImageBase64 : Bool)
    (net : Nat → OCRAttempt) : Except String String × Nat :=
  match buildOCRRequest docType docSource includeImageBase64 with
  | none => (Except.error ("unsupported document type: " ++ docType), 0)
  | some _ => ocrLoop net 0 ocrMaxRetries ""

/-! ## Document-type classification (`cmd/process.go:52-60`, `104-113`,
`cmd/process_markdown.go:83-126` — the same test appears verbatim at all
three call sites).

Go lowercases via `strings.ToLower`: each rune goes through the Unicode
simple lowercase mapping. -/

/-- One rune of `strings.ToLower`.  In the whole of Unicode, exactly two
characters outside `A`-`Z` lower into ASCII: `İ` (U+0130 → `i`) and the
Kelvin sign `K` (U+212A → `k`); both are mapped here.  Every remaining
non-ASCII character either is fixed by Go's mapping or lowers to another
non-ASCII character, and the suffix probes below compare only against the
ASCII characters of `.jpg`/`.jpeg`/`.png`/`.webp`/`.gif`, so leaving those
characters unchanged cannot change any comparison's outcome. -/
def goLowerChar (c : Char) : Char :=
  if 'A' ≤ c ∧ c ≤ 'Z' then Char.ofNat (c.toNat + 32)
  else if c = Char.ofNat 0x130 then 'i'
  else if c = Char.ofNat 0x212A then 'k'
  else c

/-- Character-wise lowering of a string, as `strings.ToLower`. -/
def toLowerStr (s : String) : String :=
  ⟨s.data.map goLowerChar⟩

/-- Classify a path or URL by its lowercased suffix. -/
def classifyDocType (path : String) : String :=
  let lower := toLowerStr path
  if ".jpg".data.isSuffixOf lower.data
      ∨ ".jpeg".data.isSuffixOf lower.data
      ∨ ".png".data.isSuffixOf lower.data
      ∨ ".webp".data.isSuffixOf lower.data
      ∨ ".gif".data.isSuffixOf lower.data
  then "image_url" else "document_url"

/-- Spec-side reading of "ends in .jpg, .jpeg, .png, .webp, or .gif,
case-insensitively". -/
def endsInImageExt (path : String) : Prop :=
  ".jpg".data <:+ (toLowerStr path).data ∨ ".jpeg".data <:+ (toLowerStr path).data
    ∨ ".png".data <:+ (toLowerStr path).data ∨ ".webp".data <:+ (toLowerStr path).data
    ∨ ".gif".data <:+ (toLowerStr path).data

instance (path : String) : Decidable (endsInImageExt path) := by
  unfold endsInImageExt
  infer_instance

/-! ## Claim theorems: client -/

/-- C1: a file whose `stat` size exceeds `MaxFileSize` makes `UploadFile`
return an error with zero HTTP requests performed — the retry loop is never
entered, for every possible behaviour of the network. -/
theorem uploadFile_rejects_oversized (size : Int) (net : Nat → UploadAttempt)
    (h : size > maxFileSize) :
    uploadFile (Except.ok size) net = (Except.error (fileTooLargeMsg size), 0) := by
  simp [uploadFile, h]

theorem uploadFile_rejects_oversized_witness :
    uploadFile (Except.ok (52 * 1024 * 1024 + 1)) (fun _ => UploadAttempt.netErr "down")
      = (Except.error (fileTooLargeMsg (52 * 1024 * 1024 + 1)), 0) :=
  uploadFile_rejects_oversized (52 * 1024 * 1024 + 1) (fun _ => UploadAttempt.netErr "down")
    (by decide)

/-- C9: for any document type other than `"document_url"` or `"image_url"`,
`ProcessOCR` errors out before the retry loop: no request is made, for
every possible behaviour of the network. -/
theorem processOCR_unsupported_type (docType docSource : String) (inc : Bool)
    (net : Nat → OCRAttempt)
    (h1 : docType ≠ "document_url") (h2 : docType ≠ "image_url") :
    processOCR docType docSource inc net
      = (Except.error ("unsupported document type: " ++ docType), 0) := by
  simp [processOCR, buildOCRRequest, documentField, h1, h2]

theorem processOCR_unsupported_type_witness :
    processOCR "spreadsheet" "https://example.com/x.xlsx" false
        (fun _ => OCRAttempt.resp 200 (OCRBody.validJSON "{}"))
      = (Except.error "unsupported document type: spreadsheet", 0) :=
  processOCR_unsupported_type "spreadsheet" "https://example.com/x.xlsx" false
    (fun _ => OCRAttempt.resp 200 (OCRBody.validJSON "{}")) (by decide) (by decide)

/-- C7: the classifier returns `"image_url"` exactly for the five image
extensions (case-insensitively) and `"document_url"` otherwise, and the
classification determines which field of the OCR request carries the
source. -/
theorem classifyDocType_spec (path docSource : String) (inc : Bool) :
    (endsInImageExt path →
        classifyDocType path = "image_url"
          ∧ buildOCRRequest (classifyDocType path) docSource inc
              = some ⟨"mistral-ocr-latest", ("image_url", docSource), inc⟩)
    ∧ (¬ endsInImageExt path →
        classifyDocType path = "document_url"
          ∧ buildOCRRequest (classifyDocType path) docSource inc
              = some ⟨"mistral-ocr-latest", ("document_url", docSource), inc⟩) := by
  constructor
  · intro h
    have hc : classifyDocType path = "image_url" := by
      unfold classifyDocType
      rw [if_pos]
      rcases h with h | h | h | h | h
      · exact Or.inl (by simpa [List.isSuffixOf_iff_suffix] using h)
      · exact Or.inr (Or.inl (by simpa [List.isSuffixOf_iff_suffix] using h))
      · exact Or.inr (Or.inr (Or.inl (by simpa [List.isSuffixOf_iff_suffix] using h)))
      · exact Or.inr (Or.inr (Or.inr (Or.inl (by simpa [List.isSuffixOf_iff_suffix] using h))))
      · exact Or.inr (Or.inr (Or.inr (Or.inr (by simpa [List.isSuffixOf_iff_suffix] using h))))
    exact ⟨hc, by rw [hc]; rfl⟩
  · intro h
    have hc : classifyDocType path = "document_url" := by
      unfold classifyDocType
      rw [if_neg]
      intro hcontra
      apply h
      unfold endsInImageExt
      rcases hcontra with h' | h' | h' | h' | h'
      · exact Or.inl (by simpa [List.isSuffixOf_iff_suffix] using h')
      · exact Or.inr (Or.inl (by simpa [List.isSuffixOf_iff_suffix] using h'))
      · exact Or.inr (Or.inr (Or.inl (by simpa [List.isSuffixOf_iff_suffix] using h')))
      · exact Or.inr (Or.inr (Or.inr (Or.inl (by simpa [List.isSuffixOf_iff_suffix] using h'))))
      · exact Or.inr (Or.inr (Or.inr (Or.inr (by simpa [List.isSuffixOf_iff_suffix] using h'))))
    exact ⟨hc, by rw [hc]; rfl⟩

theorem classifyDocType_spec_witness :
    (endsInImageExt "photo.JPG" ∧ classifyDocType "photo.JPG" = "image_url")
    ∧ (endsInImageExt "scan.gİf" ∧ classifyDocType "scan.gİf" = "image_url")
    ∧ (¬ endsInImageExt "report.pdf" ∧ classifyDocType "report.pdf" = "document_url") :=
  ⟨⟨by decide, ((classifyDocType_spec "photo.JPG" "s" false).1 (by decide)).1⟩,
   ⟨by decide, ((classifyDocType_spec "scan.gİf" "s" false).1 (by decide)).1⟩,
   ⟨by decide, ((classifyDocType_spec "report.pdf" "s" false).2 (by decide)).1⟩⟩

/-! ## Markdown converter model (`cmd/convert.go`)

File-system effects (reading the JSON, `MkdirAll`, joining output paths
onto the output directory, writing files) are outside the pure model: the
converter is modelled as a function from the parsed OCR response and the
flag set to the list of (file name, file content) pairs it writes. -/

/-- The flag variables of `convert.go` / `process_markdown.go`. -/
structure ConvertFlags where
  markdownDir : String
  markdownFile : String
  includeImages : Bool
  includePageBreaks : Bool
  titleFromFilename : Bool
  singleFile : Bool
  jsonOutputFile : String
  includeImageBase64 : Bool
  deriving DecidableEq

/-- `convertCmd.PreRun` (`convert.go:44-48`): a non-empty `--output-file`
enables single-file mode. -/
def convertPreRun (f : ConvertFlags) : ConvertFlags :=
  if f.markdownFile ≠ "" then { f with singleFile := true } else f

/-- `processMarkdownCmd.PreRun` (`process_markdown.go:41-50`): `--images`
forces `includeImageBase64`, and a non-empty `--output-file` enables
single-file mode. -/
def processMarkdownPreRun (f : ConvertFlags) : ConvertFlags :=
  let f1 := if f.includeImages then { f with includeImageBase64 := true } else f
  if f1.markdownFile ≠ "" then { f1 with singleFile := true } else f1

/-- Helper type from `convert.go:113-116`. -/
structure OCRResponse_Image where
  ID : String
  ImageBase64 : String
  deriving DecidableEq

/-- One embedded image of a page (`convert.go:57-64`). -/
structure OCRPageImage where
  ID : String
  TopLeftX : Int
  TopLeftY : Int
  BottomRightX : Int
  BottomRightY : Int
  ImageBase64 : String
  deriving DecidableEq

/-- Page dimensions (`convert.go:65-69`). -/
structure OCRDimensions where
  DPI : Int
  Height : Int
  Width : Int
  deriving DecidableEq

/-- One page of an OCR response (`convert.go:53-70`). -/
structure OCRPage where
  index : Int
  markdown : String
  images : List OCRPageImage
  dimensions : OCRDimensions
  deriving DecidableEq

/-- Document metadata (`convert.go:71-76`). -/
structure OCRMetadata where
  Title : String
  Author : String
  CreationDate : String
  PageCount : Int
  deriving DecidableEq

/-- The parsed OCR response (`convert.go:52-77`). -/
structure OCRResponse where
  pages : List OCRPage
  metadata : OCRMetadata
  deriving DecidableEq

/-! ### Literal replacement with template expansion

`replaceImageReferences` builds each regex from `regexp.QuoteMeta`-escaped
ids, so every pattern is a literal string and `ReplaceAllString` replaces
its leftmost non-overlapping occurrences, scanning left to right; that
matching is modelled by `replaceAll` below.  `ReplaceAllString` also
expands `$`-references in the replacement template as `Regexp.Expand`
does; because a quoted literal has no capture groups and every match
equals the pattern itself, that expansion is the same at every occurrence
and is modelled by `expandTemplate`.  The fuel arguments are the length of
the remaining input; each step consumes at least one character, so
starting from the input's length fuel never runs out. -/

/-- Replace leftmost non-overlapping occurrences of `p :: pt` by `rep`. -/
def replaceAllAux (p : Char) (pt rep : List Char) : Nat → List Char → List Char
  | _, [] => []
  | 0, l => l
  | fuel + 1, c :: rest =>
    if (p :: pt).isPrefixOf (c :: rest) then
      rep ++ replaceAllAux p pt rep fuel (rest.drop pt.length)
    else
      c :: replaceAllAux p pt rep fuel rest

/-- Replace all occurrences of the literal `pat` by `rep` in `s`.  (The
empty pattern never arises: every pattern used has the shape `![id](id)`,
of length at least five.) -/
def replaceAll (pat rep s : List Char) : List Char :=
  match pat with
  | [] => s
  | p :: pt => replaceAllAux p pt rep s.length s

/-- A character Go's `extract` accepts in a `$` reference name.  Go also
admits non-ASCII Unicode letters and digits here; that difference only
matters for templates that contain a `$`, which the inlining theorem's
hypotheses exclude. -/
def nameChar (c : Char) : Bool :=
  decide (('a' ≤ c ∧ c ≤ 'z') ∨ ('A' ≤ c ∧ c ≤ 'Z') ∨ ('0' ≤ c ∧ c ≤ '9') ∨ c = '_')

/-- What one `$` reference contributes for a match of a group-free literal
pattern whose match text is `m`: `$0` (the only in-range group index — a
multi-digit or leading-zero name is not the number zero) yields the match,
any other name yields nothing. -/
def refChunk (m name : List Char) : List Char :=
  if name = ['0'] then m else []

/-- One `$` reference of `Regexp.expand`, given the template text after
the `$`: handles `$$`, `$name`, and the braced form, returning the
expansion and the remaining template ; a malformed reference leaves the
`$` as raw text (Go's `extract` failure path). -/
def refStep (m rest : List Char) : List Char × List Char :=
  match rest with
  | [] => (['$'], [])
  | d :: rest' =>
    if d = '$' then (['$'], rest')
    else
      let brace := d = Char.ofNat 0x7b
      let str := if brace then rest' else d :: rest'
      let name := str.takeWhile nameChar
      if name.length = 0 then (['$'], rest)
      else
        if brace then
          match str.drop name.length with
          | c2 :: str2 =>
            if c2 = Char.ofNat 0x7d then (refChunk m name, str2) else (['$'], rest)
          | [] => (['$'], rest)
        else (refChunk m name, str.drop name.length)

/-- `Regexp.expand` of a replacement template for a match with text `m`
and no capture groups. -/
def expandAux (m : List Char) : Nat → List Char → List Char
  | _, [] => []
  | 0, l => l
  | fuel + 1, c :: rest =>
    if c = '$' then
      (refStep m rest).1 ++ expandAux m fuel (refStep m rest).2
    else
      c :: expandAux m fuel rest

/-- The expanded replacement text (`refStep` returns a suffix of its
input, so fuel `t.length` suffices). -/
def expandTemplate (m t : List Char) : List Char :=
  expandAux m t.length t

/-- String-level `Regexp.ReplaceAllString` for the `QuoteMeta`-escaped
literal `pat`: the replacement template's `$`-references are expanded
(identically at every occurrence, since each match is `pat` itself), then
every occurrence of `pat` is replaced by the expansion. -/
def replaceAllStr (pat rep s : String) : String :=
  ⟨replaceAll pat.data (expandTemplate pat.data rep.data) s.data⟩

/-- The data-URI adjustment of `convert.go:90-93`: prepend the JPEG data-URI
header unless the payload already starts with `data:`. -/
def ensureDataURI (b : String) : String :=
  if "data:".data.isPrefixOf b.data then b else "data:image/jpeg;base64," ++ b

/-- Insertion into the id → data map: overwrite the value if the key is
present, else append.  (Determinizes Go's `map[string]string`: key set and
values match Go; Go's iteration order is unspecified, here it is first
insertion order.) -/
def insertEntry (l : List (String × String)) (e : String × String) :
    List (String × String) :=
  if l.any (fun x => x.1 = e.1) then
    l.map (fun x => if x.1 = e.1 then (x.1, e.2) else x)
  else l ++ [e]

/-- The `imageMap` of `convert.go:87-96`: images with an empty
`ImageBase64` are skipped; the rest map their id to the data URI. -/
def imageMapEntries (images : List OCRResponse_Image) : List (String × String) :=
  (images.filterMap fun img =>
    if img.ImageBase64 = "" then none
    else some (img.ID, ensureDataURI img.ImageBase64)).foldl insertEntry []

/-- The Markdown image placeholder `![id](id)` for an id. -/
def mdPlaceholder (id : String) : String :=
  "![" ++ id ++ "](" ++ id ++ ")"

/-- The inlined Markdown image reference `![id](data)`. -/
def mdInlineRef (id data : String) : String :=
  "![" ++ id ++ "](" ++ data ++ ")"

/-- `replaceImageReferences` (`convert.go:81-110`). -/
def replaceImageReferences (includeImages : Bool) (content : String)
    (images : List OCRResponse_Image) : String :=
  if includeImages = false ∨ images = [] then content
  else
    (imageMapEntries images).foldl
      (fun acc e => replaceAllStr (mdPlaceholder e.1) (mdInlineRef e.1 e.2) acc)
      content

/-- The conversion of a page's image list to `OCRResponse_Image`
(`convert.go:185-191`, `239-245`). -/
def pageImageRefs (p : OCRPage) : List OCRResponse_Image :=
  p.images.map fun img => ⟨img.ID, img.ImageBase64⟩

/-- A page's content after optional image inlining (`convert.go:194-197`,
`248-251`). -/
def pageContent (includeImages : Bool) (p : OCRPage) : String :=
  if includeImages then replaceImageReferences includeImages p.markdown (pageImageRefs p)
  else p.markdown

/-- The text a page contributes in single-file mode: the `## Page n` header,
the content, and a blank line (`convert.go:180-201`). -/
def pageBlock (includeImages : Bool) (p : OCRPage) : String :=
  "## Page " ++ toString (p.index + 1) ++ "\n\n" ++ pageContent includeImages p ++ "\n\n"

/-- The page loop of single-file mode (`convert.go:180-207`): `total` is
`len(ocrResponse.Pages)`, `i` the loop index; the separator is appended
after every page but the last, when page breaks are enabled. -/
def combinePagesAux (includeImages breaks : Bool) (total : Nat) :
    Nat → List OCRPage → String
  | _, [] => ""
  | i, p :: rest =>
    pageBlock includeImages p
      ++ (if breaks ∧ i < total - 1 then "\n\n---\n\n" else "")
      ++ combinePagesAux includeImages breaks total (i + 1) rest

/-- All pages of the response, concatenated as in single-file mode. -/
def combinePages (includeImages breaks : Bool) (pages : List OCRPage) : String :=
  combinePagesAux includeImages breaks pages.length 0 pages

/-! ### Go `path/filepath` fragments used for the title -/

/-- Strip trailing `/` characters (first step of `filepath.Base`). -/
def dropTrailingSlashes (l : List Char) : List Char :=
  (l.reverse.dropWhile fun c => c = '/').reverse

/-- Everything after the last `/`. -/
def afterLastSlash (l : List Char) : List Char :=
  (l.reverse.takeWhile fun c => c ≠ '/').reverse

/-- `filepath.Base` (Unix rules): `"."` for the empty path, `"/"` for a
path of only slashes, else the last path element. -/
def filepathBase (p : String) : String :=
  if p = "" then "."
  else
    let t := dropTrailingSlashes p.data
    if t = [] then "/" else ⟨afterLastSlash t⟩

/-- Scanner for `filepath.Ext`: walks the reversed path; stops empty at a
separator, and at the final `.` returns the extension from that dot on. -/
def scanExt (seen : List Char) : List Char → List Char
  | [] => []
  | c :: rest =>
    if c = '/' then [] else if c = '.' then '.' :: seen else scanExt (c :: seen) rest

/-- `filepath.Ext`: the suffix starting at the final dot of the last path
element, or `""` when there is no dot. -/
def filepathExt (p : String) : String :=
  ⟨scanExt [] p.data.reverse⟩

/-- `strings.TrimSuffix`. -/
def trimSuffix (s sfx : String) : String :=
  if sfx.data.isSuffixOf s.data then ⟨s.data.take (s.data.length - sfx.data.length)⟩
  else s

/-- The document title of single-file mode (`convert.go:152-161`). -/
def documentTitle (titleFromFilename : Bool) (jsonFile : String)
    (resp : OCRResponse) : String :=
  if resp.metadata.Title ≠ "" then resp.metadata.Title
  else if titleFromFilename then
    trimSuffix (filepathBase jsonFile) (filepathExt (filepathBase jsonFile))
  else "Document"

/-- The optional metadata section (`convert.go:166-177`). -/
def metadataBlock (m : OCRMetadata) : String :=
  if m.Author ≠ "" ∨ m.CreationDate ≠ "" then
    "## Document Metadata\n\n"
      ++ (if m.Author ≠ "" then "**Author:** " ++ m.Author ++ "\n\n" else "")
      ++ (if m.CreationDate ≠ "" then "**Creation Date:** " ++ m.CreationDate ++ "\n\n" else "")
      ++ (if m.PageCount > 0 then "**Page Count:** " ++ toString m.PageCount ++ "\n\n" else "")
  else ""

/-- The whole single-file document (`convert.go:149-207`). -/
def singleFileContent (flags : ConvertFlags) (jsonFile : String)
    (resp : OCRResponse) : String :=
  "# " ++ documentTitle flags.titleFromFilename jsonFile resp ++ "\n\n"
    ++ metadataBlock resp.metadata
    ++ combinePages flags.includeImages flags.includePageBreaks resp.pages

/-- The single-file output name (`convert.go:211-222`; the join onto the
output directory is a file-system concern outside the model). -/
def singleFileName (flags : ConvertFlags) : String :=
  if flags.markdownFile ≠ "" then flags.markdownFile else "document.md"

/-- `convertJSONToMarkdown` (`convert.go:118-264`) as the list of
(file name, content) pairs written, in order. -/
def convertJSONToMarkdown (flags : ConvertFlags) (jsonFile : String)
    (resp : OCRResponse) : List (String × String) :=
  if flags.singleFile then
    [(singleFileName flags, singleFileContent flags jsonFile resp)]
  else
    resp.pages.map fun p => (toString p.index ++ ".md", pageContent flags.includeImages p)

/-! ## Claim theorems: converter plumbing -/

/-- C3: with single-file mode off and image inlining disabled, the
converter writes exactly one file per page, named `<index>.md` from the
page's index field, containing exactly that page's Markdown string. -/
theorem convert_multiFile_one_file_per_page (flags : ConvertFlags)
    (jsonFile : String) (resp : OCRResponse)
    (h1 : flags.singleFile = false) (h2 : flags.includeImages = false) :
    convertJSONToMarkdown flags jsonFile resp
      = resp.pages.map (fun p => (toString p.index ++ ".md", p.markdown)) := by
  simp [convertJSONToMarkdown, h1, pageContent, h2]

theorem convert_multiFile_one_file_per_page_witness :
    convertJSONToMarkdown
        ⟨"markdown_output", "", false, true, true, false, "", false⟩ "scan.json"
        ⟨[⟨0, "first page", [], ⟨0, 0, 0⟩⟩, ⟨1, "second page", [], ⟨0, 0, 0⟩⟩],
         ⟨"", "", "", 0⟩⟩
      = [("0.md", "first page"), ("1.md", "second page")] := by
  rw [convert_multiFile_one_file_per_page _ _ _ rfl rfl]
  decide

/-- C8: in single-file mode the title is the metadata title when non-empty;
otherwise, with `--title-from-filename`, the base name of the input JSON
file with its extension stripped; otherwise the default `"Document"`. -/
theorem documentTitle_spec (b : Bool) (jsonFile : String) (resp : OCRResponse) :
    (resp.metadata.Title ≠ "" → documentTitle b jsonFile resp = resp.metadata.Title)
    ∧ (resp.metadata.Title = "" → b = true →
        documentTitle b jsonFile resp
          = trimSuffix (filepathBase jsonFile) (filepathExt (filepathBase jsonFile)))
    ∧ (resp.metadata.Title = "" → b = false →
        documentTitle b jsonFile resp = "Document") := by
  refine ⟨fun h => ?_, fun h hb => ?_, fun h hb => ?_⟩
  · simp [documentTitle, h]
  · simp [documentTitle, h, hb]
  · simp [documentTitle, h, hb]

theorem documentTitle_spec_witness :
    documentTitle true "out/scan.ocr.json" ⟨[], ⟨"", "", "", 0⟩⟩ = "scan.ocr" := by
  rw [(documentTitle_spec true "out/scan.ocr.json" ⟨[], ⟨"", "", "", 0⟩⟩).2.1 rfl rfl]
  decide

/-- C10: for both the convert and markdown commands, a non-empty
`--output-file` flag forces single-file mode via the `PreRun` hook,
whatever the other flags (including `--single-file`) were. -/
theorem preRun_output_file_forces_single_file (f : ConvertFlags)
    (h : f.markdownFile ≠ "") :
    (convertPreRun f).singleFile = true ∧ (processMarkdownPreRun f).singleFile = true := by
  constructor
  · simp [convertPreRun, h]
  · unfold processMarkdownPreRun
    by_cases hi : f.includeImages <;> simp [hi, h]

theorem preRun_output_file_forces_single_file_witness :
    (convertPreRun ⟨"d", "out.md", false, true, true, false, "", false⟩).singleFile = true
    ∧ (processMarkdownPreRun ⟨"d", "out.md", false, true, true, false, "", false⟩).singleFile
        = true :=
  preRun_output_file_forces_single_file ⟨"d", "out.md", false, true, true, false, "", false⟩
    (by decide)

/-! ## Retry-policy characterization (`client.go`) -/

/-- Whether `UploadFile`'s loop retries after this attempt: transport
errors, 5xx, 429, empty bodies, unmarshal failures, and missing file ids
are retried; any other non-200 status is terminal, as is success. -/
def uploadRetryable : UploadAttempt → Bool
  | UploadAttempt.netErr _ => true
  | UploadAttempt.resp st _ UploadBody.empty =>
    if st ≠ 200 then decide (st ≥ 500 ∨ st = 429) else true
  | UploadAttempt.resp st _ (UploadBody.badJSON _) =>
    if st ≠ 200 then decide (st ≥ 500 ∨ st = 429) else true
  | UploadAttempt.resp st _ (UploadBody.withID id) =>
    if st ≠ 200 then decide (st ≥ 500 ∨ st = 429) else decide (id = "")

/-- The `lastErr` string `UploadFile`'s loop records for a failed attempt. -/
def uploadAttemptErr : UploadAttempt → String
  | UploadAttempt.netErr m => "error making upload request: " ++ m
  | UploadAttempt.resp st bt UploadBody.empty =>
    if st ≠ 200 then "API returned error status: " ++ toString st ++ " - " ++ bt
    else "received empty response from API"
  | UploadAttempt.resp st bt (UploadBody.badJSON m) =>
    if st ≠ 200 then "API returned error status: " ++ toString st ++ " - " ++ bt
    else "error parsing response: " ++ m
  | UploadAttempt.resp st bt (UploadBody.withID _) =>
    if st ≠ 200 then "API returned error status: " ++ toString st ++ " - " ++ bt
    else "received response without file ID"

/-- Whether `ProcessOCR`'s loop retries after this attempt. -/
def ocrRetryable : OCRAttempt → Bool
  | OCRAttempt.netErr _ => true
  | OCRAttempt.resp st OCRBody.empty =>
    if st ≠ 200 then decide (st ≥ 500 ∨ st = 429) else true
  | OCRAttempt.resp st (OCRBody.invalidJSON _) =>
    if st ≠ 200 then decide (st ≥ 500 ∨ st = 429) else true
  | OCRAttempt.resp st (OCRBody.validJSON _) =>
    if st ≠ 200 then decide (st ≥ 500 ∨ st = 429) else false

/-- The `lastErr` string `ProcessOCR`'s loop records for a failed attempt. -/
def ocrAttemptErr : OCRAttempt → String
  | OCRAttempt.netErr m => m
  | OCRAttempt.resp st OCRBody.empty =>
    if st ≠ 200 then "API returned error status: " ++ toString st ++ " - " ++ ocrErrText st OCRBody.empty
    else "received empty response from API"
  | OCRAttempt.resp st (OCRBody.invalidJSON t) =>
    if st ≠ 200 then "API returned error status: " ++ toString st ++ " - " ++ ocrErrText st (OCRBody.invalidJSON t)
    else "received invalid JSON response from API"
  | OCRAttempt.resp st (OCRBody.validJSON t) =>
    if st ≠ 200 then "API returned error status: " ++ toString st ++ " - " ++ ocrErrText st (OCRBody.validJSON t)
    else ""

/-- The `lastErr` in force after `k` consumed attempts, starting from `e`. -/
def uploadLastErr (net : Nat → UploadAttempt) (idx k : Nat) (e : String) : String :=
  if k = 0 then e else uploadAttemptErr (net (idx + k - 1))

/-- The `lastErr` in force after `k` consumed attempts, starting from `e`. -/
def ocrLastErr (net : Nat → OCRAttempt) (idx k : Nat) (e : String) : String :=
  if k = 0 then e else ocrAttemptErr (net (idx + k - 1))

theorem uploadLoop_retryable_step (net : Nat → UploadAttempt) (idx b : Nat) (e : String)
    (h : uploadRetryable (net idx) = true) :
    uploadLoop net idx (b + 1) e
      = ((uploadLoop net (idx + 1) b (uploadAttemptErr (net idx))).1,
         (uploadLoop net (idx + 1) b (uploadAttemptErr (net idx))).2 + 1) := by
  cases hn : net idx with
  | netErr m => simp [uploadLoop, hn, uploadAttemptErr]
  | resp st bt body =>
    rw [hn] at h
    by_cases hst : st = 200
    · subst hst
      cases body with
      | empty => simp [uploadLoop, hn, uploadAttemptErr]
      | badJSON m => simp [uploadLoop, hn, uploadAttemptErr]
      | withID id =>
        simp [uploadRetryable] at h
        simp [uploadLoop, hn, uploadAttemptErr, h]
    · have hr : st ≥ 500 ∨ st = 429 := by
        cases body <;> simp [uploadRetryable, hst] at h <;> exact h
      cases body <;> simp [uploadLoop, hn, hst, hr, uploadAttemptErr]

theorem uploadLoop_success_step (net : Nat → UploadAttempt) (idx b : Nat) (e bt id : String)
    (h : net idx = UploadAttempt.resp 200 bt (UploadBody.withID id)) (hid : id ≠ "") :
    uploadLoop net idx (b + 1) e = (Except.ok id, 1) := by
  simp [uploadLoop, h, hid]

theorem uploadLoop_failfast_step (net : Nat → UploadAttempt) (idx b : Nat)
    (e bt : String) (st : Nat) (body : UploadBody)
    (h : net idx = UploadAttempt.resp st bt body) (h200 : st ≠ 200)
    (hns : ¬ (st ≥ 500 ∨ st = 429)) :
    uploadLoop net idx (b + 1) e
      = (Except.error ("API returned error status: " ++ toString st ++ " - " ++ bt), 1) := by
  simp [uploadLoop, h, h200, hns]

theorem uploadLoop_bounded (net : Nat → UploadAttempt) :
    ∀ (b idx : Nat) (e : String), (uploadLoop net idx b e).2 ≤ b := by
  intro b
  induction b with
  | zero => intro idx e; simp [uploadLoop]
  | succ b ih =>
    intro idx e
    cases hn : net idx with
    | netErr m =>
      simp only [uploadLoop, hn]
      exact Nat.succ_le_succ (ih _ _)
    | resp st bt body =>
      by_cases hst : st = 200
      · subst hst
        cases body with
        | empty =>
          simp only [uploadLoop, hn]
          simp only [ne_eq, not_true_eq_false, if_false, reduceIte]
          exact Nat.succ_le_succ (ih _ _)
        | badJSON m =>
          simp only [uploadLoop, hn]
          simp only [ne_eq, not_true_eq_false, if_false, reduceIte]
          exact Nat.succ_le_succ (ih _ _)
        | withID id =>
          by_cases hid : id = ""
          · simp only [uploadLoop, hn]
            simp [hid]
            exact ih _ _
          · simp [uploadLoop, hn, hid]
      · by_cases hr : st ≥ 500 ∨ st = 429
        · simp only [uploadLoop, hn]
          simp [hst, hr]
          exact ih _ _
        · simp [uploadLoop, hn, hst, hr]

theorem uploadLoop_exhaust (net : Nat → UploadAttempt) :
    ∀ (b idx : Nat) (e : String),
      (∀ i, i < b → uploadRetryable (net (idx + i)) = true) →
      uploadLoop net idx b e
        = (Except.error ("failed to upload file after " ++ toString uploadMaxRetries
            ++ " attempts: " ++ uploadLastErr net idx b e), b) := by
  intro b
  induction b with
  | zero => intro idx e _; simp [uploadLoop, uploadLastErr]
  | succ b ih =>
    intro idx e h
    have h0 : uploadRetryable (net idx) = true := by
      have := h 0 (Nat.succ_pos b)
      simpa using this
    rw [uploadLoop_retryable_step net idx b e h0]
    have hrest : ∀ i, i < b → uploadRetryable (net (idx + 1 + i)) = true := by
      intro i hi
      have := h (i + 1) (Nat.succ_lt_succ hi)
      simpa [Nat.add_assoc, Nat.add_comm 1 i] using this
    rw [ih (idx + 1) (uploadAttemptErr (net idx)) hrest]
    have hle : uploadLastErr net (idx + 1) b (uploadAttemptErr (net idx))
        = uploadLastErr net idx (b + 1) e := by
      cases b with
      | zero => simp [uploadLastErr]
      | succ b' =>
        simp only [uploadLastErr, Nat.succ_ne_zero, if_false, reduceIte]
        congr 2
        omega
    rw [hle]

theorem uploadLoop_skip (net : Nat → UploadAttempt) :
    ∀ (k b idx : Nat) (e : String), k ≤ b →
      (∀ i, i < k → uploadRetryable (net (idx + i)) = true) →
      uploadLoop net idx b e
        = ((uploadLoop net (idx + k) (b - k) (uploadLastErr net idx k e)).1,
           (uploadLoop net (idx + k) (b - k) (uploadLastErr net idx k e)).2 + k) := by
  intro k
  induction k with
  | zero => intro b idx e _ _; simp [uploadLastErr]
  | succ k ih =>
    intro b idx e hkb h
    cases b with
    | zero => omega
    | succ b' =>
      have h0 : uploadRetryable (net idx) = true := by
        have := h 0 (Nat.succ_pos k)
        simpa using this
      rw [uploadLoop_retryable_step net idx b' e h0]
      have hrest : ∀ i, i < k → uploadRetryable (net (idx + 1 + i)) = true := by
        intro i hi
        have := h (i + 1) (Nat.succ_lt_succ hi)
        simpa [Nat.add_assoc, Nat.add_comm 1 i] using this
      rw [ih b' (idx + 1) (uploadAttemptErr (net idx)) (Nat.le_of_succ_le_succ hkb) hrest]
      have hle : uploadLastErr net (idx + 1) k (uploadAttemptErr (net idx))
          = uploadLastErr net idx (k + 1) e := by
        cases k with
        | zero => simp [uploadLastErr]
        | succ k' =>
          simp only [uploadLastErr, Nat.succ_ne_zero, if_false, reduceIte]
          congr 2
          omega
      rw [hle]
      have ha : idx + 1 + k = idx + (k + 1) := by omega
      have hb : b' - k = b' + 1 - (k + 1) := by omega
      rw [ha, hb]
      simp [Nat.add_assoc]

theorem ocrLoop_retryable_step (net : Nat → OCRAttempt) (idx b : Nat) (e : String)
    (h : ocrRetryable (net idx) = true) :
    ocrLoop net idx (b + 1) e
      = ((ocrLoop net (idx + 1) b (ocrAttemptErr (net idx))).1,
         (ocrLoop net (idx + 1) b (ocrAttemptErr (net idx))).2 + 1) := by
  cases hn : net idx with
  | netErr m => simp [ocrLoop, hn, ocrAttemptErr]
  | resp st body =>
    rw [hn] at h
    by_cases hst : st = 200
    · subst hst
      cases body with
      | empty => simp [ocrLoop, hn, ocrAttemptErr]
      | invalidJSON t => simp [ocrLoop, hn, ocrAttemptErr]
      | validJSON t => simp [ocrRetryable] at h
    · have hr : st ≥ 500 ∨ st = 429 := by
        cases body <;> simp [ocrRetryable, hst] at h <;> exact h
      cases body <;> simp [ocrLoop, hn, hst, hr, ocrAttemptErr]

theorem ocrLoop_success_step (net : Nat → OCRAttempt) (idx b : Nat) (e t : String)
    (h : net idx = OCRAttempt.resp 200 (OCRBody.validJSON t)) :
    ocrLoop net idx (b + 1) e = (Except.ok t, 1) := by
  simp [ocrLoop, h]

theorem ocrLoop_failfast_step (net : Nat → OCRAttempt) (idx b : Nat)
    (e : String) (st : Nat) (body : OCRBody)
    (h : net idx = OCRAttempt.resp st body) (h200 : st ≠ 200)
    (hns : ¬ (st ≥ 500 ∨ st = 429)) :
    ocrLoop net idx (b + 1) e
      = (Except.error ("API returned error status: " ++ toString st ++ " - "
          ++ ocrErrText st body), 1) := by
  simp [ocrLoop, h, h200, hns]

theorem ocrLoop_bounded (net : Nat → OCRAttempt) :
    ∀ (b idx : Nat) (e : String), (ocrLoop net idx b e).2 ≤ b := by
  intro b
  induction b with
  | zero => intro idx e; simp [ocrLoop]
  | succ b ih =>
    intro idx e
    cases hn : net idx with
    | netErr m =>
      simp only [ocrLoop, hn]
      exact Nat.succ_le_succ (ih _ _)
    | resp st body =>
      by_cases hst : st = 200
      · subst hst
        cases body with
        | empty =>
          simp only [ocrLoop, hn]
          simp only [ne_eq, not_true_eq_false, if_false, reduceIte]
          exact Nat.succ_le_succ (ih _ _)
        | invalidJSON t =>
          simp only [ocrLoop, hn]
          simp only [ne_eq, not_true_eq_false, if_false, reduceIte]
          exact Nat.succ_le_succ (ih _ _)
        | validJSON t => simp [ocrLoop, hn]
      · by_cases hr : st ≥ 500 ∨ st = 429
        · simp only [ocrLoop, hn]
          simp [hst, hr]
          exact ih _ _
        · simp [ocrLoop, hn, hst, hr]

theorem ocrLoop_exhaust (net : Nat → OCRAttempt) :
    ∀ (b idx : Nat) (e : String),
      (∀ i, i < b → ocrRetryable (net (idx + i)) = true) →
      ocrLoop net idx b e
        = (Except.error ("failed after " ++ toString ocrMaxRetries
            ++ " attempts. Last error: " ++ ocrLastErr net idx b e), b) := by
  intro b
  induction b with
  | zero => intro idx e _; simp [ocrLoop, ocrLastErr]
  | succ b ih =>
    intro idx e h
    have h0 : ocrRetryable (net idx) = true := by
      have := h 0 (Nat.succ_pos b)
      simpa using this
    rw [ocrLoop_retryable_step net idx b e h0]
    have hrest : ∀ i, i < b → ocrRetryable (net (idx + 1 + i)) = true := by
      intro i hi
      have := h (i + 1) (Nat.succ_lt_succ hi)
      simpa [Nat.add_assoc, Nat.add_comm 1 i] using this
    rw [ih (idx + 1) (ocrAttemptErr (net idx)) hrest]
    have hle : ocrLastErr net (idx + 1) b (ocrAttemptErr (net idx))
        = ocrLastErr net idx (b + 1) e := by
      cases b with
      | zero => simp [ocrLastErr]
      | succ b' =>
        simp only [ocrLastErr, Nat.succ_ne_zero, if_false, reduceIte]
        congr 2
        omega
    rw [hle]

theorem ocrLoop_skip (net : Nat → OCRAttempt) :
    ∀ (k b idx : Nat) (e : String), k ≤ b →
      (∀ i, i < k → ocrRetryable (net (idx + i)) = true) →
      ocrLoop net idx b e
        = ((ocrLoop net (idx + k) (b - k) (ocrLastErr net idx k e)).1,
           (ocrLoop net (idx + k) (b - k) (ocrLastErr net idx k e)).2 + k) := by
  intro k
  induction k with
  | zero => intro b idx e _ _; simp [ocrLastErr]
  | succ k ih =>
    intro b idx e hkb h
    cases b with
    | zero => omega
    | succ b' =>
      have h0 : ocrRetryable (net idx) = true := by
        have := h 0 (Nat.succ_pos k)
        simpa using this
      rw [ocrLoop_retryable_step net idx b' e h0]
      have hrest : ∀ i, i < k → ocrRetryable (net (idx + 1 + i)) = true := by
        intro i hi
        have := h (i + 1) (Nat.succ_lt_succ hi)
        simpa [Nat.add_assoc, Nat.add_comm 1 i] using this
      rw [ih b' (idx + 1) (ocrAttemptErr (net idx)) (Nat.le_of_succ_le_succ hkb) hrest]
      have hle : ocrLastErr net (idx + 1) k (ocrAttemptErr (net idx))
          = ocrLastErr net idx (k + 1) e := by
        cases k with
        | zero => simp [ocrLastErr]
        | succ k' =>
          simp only [ocrLastErr, Nat.succ_ne_zero, if_false, reduceIte]
          congr 2
          omega
      rw [hle]
      have ha : idx + 1 + k = idx + (k + 1) := by omega
      have hb : b' - k = b' + 1 - (k + 1) := by omega
      rw [ha, hb]
      simp [Nat.add_assoc]

/-! ## Claim theorems: retry behaviour -/

/-- A network where the first `GET /files/{id}/url` attempt gets a 500 and
any further attempt would succeed. -/
def getURLNetEx : Nat → GetURLAttempt := fun n =>
  if n = 0 then GetURLAttempt.resp 500 "boom" (GetURLBody.badJSON "x")
  else GetURLAttempt.resp 200 "url: https://signed" (GetURLBody.withURL "https://signed")

/-- C5 counterexample: the claim says every network operation of the
client, `GetFileURL` included, retries on server errors (status ≥ 500).
Here the first attempt returns status 500 and a retry would succeed, yet
`GetFileURL` fails after exactly one request — it has no retry loop. -/
theorem getFileURL_does_not_retry_counterexample :
    getURLNetEx 0 = GetURLAttempt.resp 500 "boom" (GetURLBody.badJSON "x")
    ∧ getURLNetEx 1
        = GetURLAttempt.resp 200 "url: https://signed" (GetURLBody.withURL "https://signed")
    ∧ getFileURL getURLNetEx = (Except.error "API returned error status: 500 - boom", 1) := by
  refine ⟨rfl, rfl, ?_⟩
  rfl

/-- C5 (amended): `UploadFile` and `ProcessOCR` retry a bounded number of
times (3 and 5 attempts) on server errors (status ≥ 500), 429, empty
bodies and malformed JSON, and fail immediately on any other non-200
status; `GetFileURL` performs exactly one request and fails immediately on
any error.  Conjuncts: attempt counts are bounded (and exactly one for
`GetFileURL`); after any run of retryable failures shorter than the
budget, a success succeeds and a non-retryable client error fails at once
with that attempt's status message. -/
theorem client_retry_policy :
    (∀ (stat : Except String Int) (net : Nat → UploadAttempt),
        (uploadFile stat net).2 ≤ uploadMaxRetries)
    ∧ (∀ (docType docSource : String) (inc : Bool) (net : Nat → OCRAttempt),
        (processOCR docType docSource inc net).2 ≤ ocrMaxRetries)
    ∧ (∀ net : Nat → GetURLAttempt, (getFileURL net).2 = 1)
    ∧ (∀ (net : Nat → UploadAttempt) (sz : Int) (k : Nat) (bt id : String),
        ¬ sz > maxFileSize → k < uploadMaxRetries →
        (∀ i, i < k → uploadRetryable (net i) = true) →
        net k = UploadAttempt.resp 200 bt (UploadBody.withID id) → id ≠ "" →
        uploadFile (Except.ok sz) net = (Except.ok id, k + 1))
    ∧ (∀ (net : Nat → UploadAttempt) (sz : Int) (k st : Nat) (bt : String) (body : UploadBody),
        ¬ sz > maxFileSize → k < uploadMaxRetries →
        (∀ i, i < k → uploadRetryable (net i) = true) →
        net k = UploadAttempt.resp st bt body → st ≠ 200 → ¬ (st ≥ 500 ∨ st = 429) →
        uploadFile (Except.ok sz) net
          = (Except.error ("API returned error status: " ++ toString st ++ " - " ++ bt), k + 1))
    ∧ (∀ (net : Nat → OCRAttempt) (src t : String) (inc : Bool) (k : Nat),
        k < ocrMaxRetries →
        (∀ i, i < k → ocrRetryable (net i) = true) →
        net k = OCRAttempt.resp 200 (OCRBody.validJSON t) →
        processOCR "document_url" src inc net = (Except.ok t, k + 1))
    ∧ (∀ (net : Nat → OCRAttempt) (src : String) (inc : Bool) (k st : Nat) (body : OCRBody),
        k < ocrMaxRetries →
        (∀ i, i < k → ocrRetryable (net i) = true) →
        net k = OCRAttempt.resp st body → st ≠ 200 → ¬ (st ≥ 500 ∨ st = 429) →
        processOCR "document_url" src inc net
          = (Except.error ("API returned error status: " ++ toString st ++ " - "
              ++ ocrErrText st body), k + 1)) := by
  refine ⟨?_, ?_, ?_, ?_, ?_, ?_, ?_⟩
  · intro stat net
    cases stat with
    | error e => simp [uploadFile]
    | ok size =>
      by_cases h : size > maxFileSize
      · simp [uploadFile, h]
      · simp only [uploadFile, h, if_false, reduceIte]
        exact uploadLoop_bounded net uploadMaxRetries 0 ""
  · intro docType docSource inc net
    cases h : buildOCRRequest docType docSource inc with
    | none => simp [processOCR, h]
    | some r =>
      simp only [processOCR, h]
      exact ocrLoop_bounded net ocrMaxRetries 0 ""
  · intro net
    cases hn : net 0 with
    | netErr m => simp [getFileURL, hn]
    | resp st bt body =>
      by_cases hst : st = 200
      · subst hst
        cases body with
        | badJSON m => simp [getFileURL, hn]
        | withURL u => by_cases hu : u = "" <;> simp [getFileURL, hn, hu]
      · simp [getFileURL, hn, hst]
  · intro net sz k bt id hsz hk hpre hnet hid
    have h1 : uploadFile (Except.ok sz) net = uploadLoop net 0 uploadMaxRetries "" := by
      simp [uploadFile, hsz]
    rw [h1, uploadLoop_skip net k uploadMaxRetries 0 "" (Nat.le_of_lt hk)
      (by simpa using hpre)]
    obtain ⟨m, hm⟩ : ∃ m, uploadMaxRetries - k = m + 1 := ⟨uploadMaxRetries - k - 1, by omega⟩
    rw [Nat.zero_add, hm, uploadLoop_success_step net k m _ bt id hnet hid]
    simp [Nat.add_comm]
  · intro net sz k st bt body hsz hk hpre hnet h200 hns
    have h1 : uploadFile (Except.ok sz) net = uploadLoop net 0 uploadMaxRetries "" := by
      simp [uploadFile, hsz]
    rw [h1, uploadLoop_skip net k uploadMaxRetries 0 "" (Nat.le_of_lt hk)
      (by simpa using hpre)]
    obtain ⟨m, hm⟩ : ∃ m, uploadMaxRetries - k = m + 1 := ⟨uploadMaxRetries - k - 1, by omega⟩
    rw [Nat.zero_add, hm, uploadLoop_failfast_step net k m _ bt st body hnet h200 hns]
    simp [Nat.add_comm]
  · intro net src t inc k hk hpre hnet
    have h1 : processOCR "document_url" src inc net = ocrLoop net 0 ocrMaxRetries "" := by
      simp [processOCR, buildOCRRequest, documentField]
    rw [h1, ocrLoop_skip net k ocrMaxRetries 0 "" (Nat.le_of_lt hk) (by simpa using hpre)]
    obtain ⟨m, hm⟩ : ∃ m, ocrMaxRetries - k = m + 1 := ⟨ocrMaxRetries - k - 1, by omega⟩
    rw [Nat.zero_add, hm, ocrLoop_success_step net k m _ t hnet]
    simp [Nat.add_comm]
  · intro net src inc k st body hk hpre hnet h200 hns
    have h1 : processOCR "document_url" src inc net = ocrLoop net 0 ocrMaxRetries "" := by
      simp [processOCR, buildOCRRequest, documentField]
    rw [h1, ocrLoop_skip net k ocrMaxRetries 0 "" (Nat.le_of_lt hk) (by simpa using hpre)]
    obtain ⟨m, hm⟩ : ∃ m, ocrMaxRetries - k = m + 1 := ⟨ocrMaxRetries - k - 1, by omega⟩
    rw [Nat.zero_add, hm, ocrLoop_failfast_step net k m _ st body hnet h200 hns]
    simp [Nat.add_comm]

/-- A network whose first upload attempt gets a 503 with an empty body and
whose second succeeds. -/
def uploadNetW : Nat → UploadAttempt := fun n =>
  if n = 0 then UploadAttempt.resp 503 "overloaded" UploadBody.empty
  else UploadAttempt.resp 200 "id: file-1" (UploadBody.withID "file-1")

theorem client_retry_policy_witness :
    uploadFile (Except.ok 1000) uploadNetW = (Except.ok "file-1", 2) :=
  client_retry_policy.2.2.2.1 uploadNetW 1000 1 "id: file-1" "file-1"
    (by decide) (by decide)
    (fun i hi => by
      have h0 : i = 0 := Nat.lt_one_iff.mp hi
      subst h0
      decide)
    (by decide) (by decide)

/-- C6: exhausting the retry budget (3 attempts for `UploadFile`, 5 for
`ProcessOCR`) on retryable failures yields an error whose message carries
the error recorded for the final failed attempt (`net 2` resp. `net 4`). -/
theorem retry_exhaustion_surfaces_last_error :
    (∀ (net : Nat → UploadAttempt) (sz : Int), ¬ sz > maxFileSize →
      (∀ i, i < uploadMaxRetries → uploadRetryable (net i) = true) →
      uploadFile (Except.ok sz) net
        = (Except.error ("failed to upload file after " ++ toString uploadMaxRetries
            ++ " attempts: " ++ uploadAttemptErr (net 2)), uploadMaxRetries))
    ∧ (∀ (net : Nat → OCRAttempt) (src : String) (inc : Bool),
      (∀ i, i < ocrMaxRetries → ocrRetryable (net i) = true) →
      processOCR "document_url" src inc net
        = (Except.error ("failed after " ++ toString ocrMaxRetries
            ++ " attempts. Last error: " ++ ocrAttemptErr (net 4)), ocrMaxRetries)) := by
  constructor
  · intro net sz hsz h
    have h1 : uploadFile (Except.ok sz) net = uploadLoop net 0 uploadMaxRetries "" := by
      simp [uploadFile, hsz]
    rw [h1, uploadLoop_exhaust net uploadMaxRetries 0 "" (by simpa using h)]
    simp [uploadLastErr, uploadMaxRetries]
  · intro net src inc h
    have h1 : processOCR "document_url" src inc net = ocrLoop net 0 ocrMaxRetries "" := by
      simp [processOCR, buildOCRRequest, documentField]
    rw [h1, ocrLoop_exhaust net ocrMaxRetries 0 "" (by simpa using h)]
    simp [ocrLastErr, ocrMaxRetries]

/-- A network that fails every upload attempt with a transport error. -/
def uploadNetFail : Nat → UploadAttempt := fun n =>
  UploadAttempt.netErr ("dial tcp: timeout " ++ toString n)

theorem retry_exhaustion_surfaces_last_error_witness :
    uploadFile (Except.ok 5) uploadNetFail
      = (Except.error
          "failed to upload file after 3 attempts: error making upload request: dial tcp: timeout 2",
         3) := by
  have h := retry_exhaustion_surfaces_last_error.1 uploadNetFail 5 (by decide)
    (fun i _ => by simp [uploadNetFail, uploadRetryable])
  rw [h]
  rfl

/-! ## Single-file structure (C2) -/

theorem string_eq_of_data {s t : String} (h : s.data = t.data) : s = t := by
  cases s
  cases t
  exact congrArg String.mk h

theorem string_data_append (s t : String) : (s ++ t).data = s.data ++ t.data := rfl

theorem combinePagesAux_eq_joinSep (inc breaks : Bool) :
    ∀ (l : List OCRPage) (i total : Nat), total = i + l.length →
      combinePagesAux inc breaks total i l
        = joinSep (if breaks then "\n\n---\n\n" else "") (l.map (pageBlock inc)) := by
  intro l
  induction l with
  | nil => intro i total _; rfl
  | cons p rest ih =>
    intro i total htot
    cases rest with
    | nil =>
      have hlt : ¬ (i < total - 1) := by
        simp at htot
        omega
      show pageBlock inc p ++ (if breaks = true ∧ i < total - 1 then "\n\n---\n\n" else "")
          ++ combinePagesAux inc breaks total (i + 1) [] = _
      rw [if_neg (fun hc => hlt hc.2)]
      show pageBlock inc p ++ "" ++ "" = joinSep _ [pageBlock inc p]
      apply string_eq_of_data
      simp [string_data_append, joinSep]
    | cons q rest' =>
      have hlt : i < total - 1 := by
        simp at htot
        omega
      have hih := ih (i + 1) total (by simp at htot ⊢; omega)
      show pageBlock inc p ++ (if breaks = true ∧ i < total - 1 then "\n\n---\n\n" else "")
          ++ combinePagesAux inc breaks total (i + 1) (q :: rest') = _
      by_cases hb : breaks = true
      · rw [if_pos ⟨hb, hlt⟩, hih, hb]
        rfl
      · have hb' : breaks = false := by
          cases breaks
          · rfl
          · exact absurd rfl hb
        rw [if_neg (fun hc => hb hc.1), hih, hb']
        rfl

theorem combinePages_eq_joinSep (inc breaks : Bool) (pages : List OCRPage) :
    combinePages inc breaks pages
      = joinSep (if breaks then "\n\n---\n\n" else "") (pages.map (pageBlock inc)) :=
  combinePagesAux_eq_joinSep inc breaks pages 0 pages.length (by simp)

theorem mem_data_sub_joinSep (sep : String) (f : OCRPage → String) :
    ∀ (l : List OCRPage) (p : OCRPage), p ∈ l →
      (f p).data <:+: (joinSep sep (l.map f)).data := by
  intro l
  induction l with
  | nil => intro p hp; cases hp
  | cons q rest ih =>
    intro p hp
    cases rest with
    | nil =>
      have hpq : p = q := by
        cases hp with
        | head => rfl
        | tail _ h => cases h
      subst hpq
      exact List.infix_refl _
    | cons r rest' =>
      cases hp with
      | head =>
        refine ⟨[], (sep ++ joinSep sep ((r :: rest').map f)).data, ?_⟩
        simp [joinSep, string_data_append]
      | tail _ h =>
        obtain ⟨u, v, huv⟩ := ih p h
        refine ⟨(f q ++ sep).data ++ u, v, ?_⟩
        simp only [List.map_cons] at huv ⊢
        have hexp : (joinSep sep (f q :: f r :: List.map f rest')).data
            = (f q ++ sep).data ++ (joinSep sep (f r :: List.map f rest')).data := rfl
        rw [hexp, ← huv]
        simp [List.append_assoc]

/-- Insertion sort of pages by ascending index (used only to state the
spec's "ascending page-index order"). -/
def insertByIndex (p : OCRPage) : List OCRPage → List OCRPage
  | [] => [p]
  | q :: rest => if p.index ≤ q.index then p :: q :: rest else q :: insertByIndex p rest

/-- Sort pages by ascending index. -/
def sortPagesByIndex : List OCRPage → List OCRPage
  | [] => []
  | p :: rest => insertByIndex p (sortPagesByIndex rest)

/-- The single-file document the claim describes: page contents in
ascending page-index order (the code's own title, metadata block, page
blocks and separator). -/
def singleFileContentSpec (flags : ConvertFlags) (jsonFile : String)
    (resp : OCRResponse) : String :=
  "# " ++ documentTitle flags.titleFromFilename jsonFile resp ++ "\n\n"
    ++ metadataBlock resp.metadata
    ++ joinSep (if flags.includePageBreaks then "\n\n---\n\n" else "")
        ((sortPagesByIndex resp.pages).map (pageBlock flags.includeImages))

/-- A payload whose pages are listed in descending index order. -/
def respOutOfOrder : OCRResponse :=
  ⟨[⟨1, "BETA", [], ⟨0, 0, 0⟩⟩, ⟨0, "ALPHA", [], ⟨0, 0, 0⟩⟩], ⟨"T", "", "", 0⟩⟩

/-- The convert flags for the counterexample: single-file mode, defaults
otherwise. -/
def flagsC2 : ConvertFlags :=
  ⟨"markdown_output", "", false, true, true, true, "", false⟩

/-- C2 counterexample: the claim requires page contents in ascending
page-index order, but `convertJSONToMarkdown` emits pages in payload
order without sorting: on a payload listing index 1 before index 0 the
produced document differs from the index-ordered one the claim
describes. -/
theorem convert_singleFile_order_counterexample :
    singleFileContent flagsC2 "doc.json" respOutOfOrder
      ≠ singleFileContentSpec flagsC2 "doc.json" respOutOfOrder := by
  decide

/-- C2 (amended): in single-file mode (with image inlining disabled) the
converter produces exactly one document consisting of the title header,
the metadata block, and the page blocks in payload order joined by the
page-break delimiter `\n\n---\n\n` when page breaks are enabled (and by
nothing otherwise), with no delimiter after the last page; the document
contains every page's Markdown, and whenever the payload lists its pages
in ascending index order the document is exactly the index-ordered
document of the original claim. -/
theorem convert_singleFile_structure (flags : ConvertFlags) (jsonFile : String)
    (resp : OCRResponse)
    (h1 : flags.singleFile = true) (h2 : flags.includeImages = false) :
    convertJSONToMarkdown flags jsonFile resp
        = [(singleFileName flags, singleFileContent flags jsonFile resp)]
    ∧ singleFileContent flags jsonFile resp
        = "# " ++ documentTitle flags.titleFromFilename jsonFile resp ++ "\n\n"
            ++ metadataBlock resp.metadata
            ++ joinSep (if flags.includePageBreaks then "\n\n---\n\n" else "")
                (resp.pages.map (pageBlock false))
    ∧ (∀ p ∈ resp.pages, substrOf p.markdown (singleFileContent flags jsonFile resp) = true)
    ∧ (sortPagesByIndex resp.pages = resp.pages →
        singleFileContent flags jsonFile resp = singleFileContentSpec flags jsonFile resp) := by
  refine ⟨by simp [convertJSONToMarkdown, h1], ?_, ?_, ?_⟩
  · unfold singleFileContent
    rw [combinePages_eq_joinSep, h2]
  · intro p hp
    have hsub1 : (p.markdown).data <:+: (pageBlock false p).data := by
      refine ⟨("## Page " ++ toString (p.index + 1) ++ "\n\n").data, "\n\n".data, ?_⟩
      simp [pageBlock, pageContent, string_data_append, List.append_assoc]
    have hsub2 : (pageBlock false p).data
        <:+: (joinSep (if flags.includePageBreaks then "\n\n---\n\n" else "")
              (resp.pages.map (pageBlock false))).data := by
      exact mem_data_sub_joinSep _ _ resp.pages p hp
    have hsub3 : (p.markdown).data <:+: (singleFileContent flags jsonFile resp).data := by
      have h4 := hsub1.trans hsub2
      obtain ⟨u, v, huv⟩ := h4
      unfold singleFileContent
      rw [combinePages_eq_joinSep, h2]
      refine ⟨("# " ++ documentTitle flags.titleFromFilename jsonFile resp ++ "\n\n"
          ++ metadataBlock resp.metadata).data ++ u, v, ?_⟩
      simp only [string_data_append, List.append_assoc]
      rw [← huv]
      simp [List.append_assoc]
    simp [substrOf]
    exact hsub3
  · intro hsorted
    unfold singleFileContent singleFileContentSpec
    rw [combinePages_eq_joinSep, hsorted, h2]

/-- A payload whose pages already appear in ascending index order. -/
def respInOrder : OCRResponse :=
  ⟨[⟨0, "ALPHA", [], ⟨0, 0, 0⟩⟩, ⟨1, "BETA", [], ⟨0, 0, 0⟩⟩], ⟨"T", "", "", 0⟩⟩

theorem convert_singleFile_structure_witness :
    convertJSONToMarkdown flagsC2 "doc.json" respInOrder
        = [("document.md", singleFileContent flagsC2 "doc.json" respInOrder)]
    ∧ substrOf "ALPHA" (singleFileContent flagsC2 "doc.json" respInOrder) = true
    ∧ singleFileContent flagsC2 "doc.json" respInOrder
        = singleFileContentSpec flagsC2 "doc.json" respInOrder := by
  have h := convert_singleFile_structure flagsC2 "doc.json" respInOrder rfl rfl
  refine ⟨h.1, ?_, h.2.2.2 (by decide)⟩
  exact h.2.2.1 ⟨0, "ALPHA", [], ⟨0, 0, 0⟩⟩ (by decide)

/-! ## Image-reference inlining (C4)

Every pattern `![id](id)` and replacement `![id](data)` starts with `!`.
When neither ids nor payloads contain `!`, occurrences of a pattern can
only start at a `!` of the subject, so `replaceAll` acts independently on
the `!`-delimited segments of the subject.  `splitBang`/`joinBang`
realize that decomposition. -/

/-- Split a character list at its `!` marks: the part before the first
`!`, and one segment per `!` (the characters following it up to the
next `!`). -/
def splitBang : List Char → List Char × List (List Char)
  | [] => ([], [])
  | c :: rest =>
    if c = '!' then ([], (splitBang rest).1 :: (splitBang rest).2)
    else (c :: (splitBang rest).1, (splitBang rest).2)

/-- Reassemble a `splitBang` decomposition. -/
def joinBang (pre : List Char) (segs : List (List Char)) : List Char :=
  pre ++ (segs.map (fun s => '!' :: s)).flatten

/-- The action of one literal replacement on one `!`-segment. -/
def segRepl (pt rt : List Char) (seg : List Char) : List Char :=
  if pt.isPrefixOf seg then rt ++ seg.drop pt.length else seg

theorem joinBang_splitBang : ∀ s : List Char, joinBang (splitBang s).1 (splitBang s).2 = s := by
  intro s
  induction s with
  | nil => rfl
  | cons c rest ih =>
    by_cases hc : c = '!'
    · subst hc
      have h1 : splitBang ('!' :: rest) = ([], (splitBang rest).1 :: (splitBang rest).2) := by
        simp [splitBang]
      rw [h1]
      have h2 : joinBang [] ((splitBang rest).1 :: (splitBang rest).2)
          = '!' :: joinBang (splitBang rest).1 (splitBang rest).2 := by
        simp [joinBang]
      rw [h2, ih]
    · have h1 : splitBang (c :: rest) = (c :: (splitBang rest).1, (splitBang rest).2) := by
        simp [splitBang, hc]
      rw [h1]
      have h2 : joinBang (c :: (splitBang rest).1) (splitBang rest).2
          = c :: joinBang (splitBang rest).1 (splitBang rest).2 := by
        simp [joinBang]
      rw [h2, ih]

theorem splitBang_bangfree : ∀ s : List Char,
    '!' ∉ (splitBang s).1 ∧ ∀ seg ∈ (splitBang s).2, '!' ∉ seg := by
  intro s
  induction s with
  | nil => exact ⟨by simp [splitBang], by simp [splitBang]⟩
  | cons c rest ih =>
    by_cases hc : c = '!'
    · subst hc
      have h1 : splitBang ('!' :: rest) = ([], (splitBang rest).1 :: (splitBang rest).2) := by
        simp [splitBang]
      rw [h1]
      refine ⟨by simp, ?_⟩
      intro seg hseg
      rcases List.mem_cons.mp hseg with h | h
      · exact h ▸ ih.1
      · exact ih.2 seg h
    · have h1 : splitBang (c :: rest) = (c :: (splitBang rest).1, (splitBang rest).2) := by
        simp [splitBang, hc]
      rw [h1]
      refine ⟨?_, ih.2⟩
      intro hm
      rcases List.mem_cons.mp hm with h | h
      · exact hc h.symm
      · exact ih.1 h

theorem splitBang_append_bangfree (pre : List Char) (h : '!' ∉ pre) :
    ∀ t : List Char, splitBang (pre ++ t) = (pre ++ (splitBang t).1, (splitBang t).2) := by
  induction pre with
  | nil => intro t; simp
  | cons c pre' ih =>
    intro t
    have hc : ¬ (c = '!') := fun hc => h (hc ▸ List.mem_cons_self c pre')
    have h' : '!' ∉ pre' := fun hm => h (List.mem_cons_of_mem c hm)
    show splitBang (c :: (pre' ++ t)) = _
    simp [splitBang, hc, ih h' t]

theorem splitBang_joinTail (segs : List (List Char)) (h : ∀ seg ∈ segs, '!' ∉ seg) :
    splitBang ((segs.map (fun s => '!' :: s)).flatten) = ([], segs) := by
  induction segs with
  | nil => rfl
  | cons seg rest ih =>
    have hseg : '!' ∉ seg := h seg (List.mem_cons_self _ _)
    have hrest : ∀ s ∈ rest, '!' ∉ s := fun s hs => h s (List.mem_cons_of_mem _ hs)
    show splitBang (('!' :: seg) ++ (rest.map _).flatten) = _
    rw [List.cons_append]
    have h1 : splitBang ('!' :: (seg ++ (rest.map (fun s => '!' :: s)).flatten))
        = ([], (splitBang (seg ++ (rest.map (fun s => '!' :: s)).flatten)).1
            :: (splitBang (seg ++ (rest.map (fun s => '!' :: s)).flatten)).2) := by
      simp [splitBang]
    rw [h1, splitBang_append_bangfree seg hseg, ih hrest]
    simp

theorem splitBang_joinBang (pre : List Char) (segs : List (List Char))
    (hpre : '!' ∉ pre) (hsegs : ∀ seg ∈ segs, '!' ∉ seg) :
    splitBang (joinBang pre segs) = (pre, segs) := by
  unfold joinBang
  rw [splitBang_append_bangfree pre hpre, splitBang_joinTail segs hsegs]
  simp

theorem splitBang_drop : ∀ (n : Nat) (s : List Char), n ≤ (splitBang s).1.length →
    splitBang (s.drop n) = ((splitBang s).1.drop n, (splitBang s).2) := by
  intro n
  induction n with
  | zero => intro s _; simp
  | succ n ih =>
    intro s hn
    cases s with
    | nil => simp [splitBang] at hn
    | cons c rest =>
      by_cases hc : c = '!'
      · subst hc
        have h1 : splitBang ('!' :: rest) = ([], (splitBang rest).1 :: (splitBang rest).2) := by
          simp [splitBang]
        rw [h1] at hn
        simp at hn
      · have h1 : splitBang (c :: rest) = (c :: (splitBang rest).1, (splitBang rest).2) := by
          simp [splitBang, hc]
        rw [h1] at hn
        have h2 : (c :: rest).drop (n + 1) = rest.drop n := rfl
        rw [h2, ih rest (by simpa using hn), h1]
        simp

theorem pref_splitBang : ∀ (t pt : List Char), '!' ∉ pt →
    ((pt <+: t) ↔ pt <+: (splitBang t).1) := by
  intro t
  induction t with
  | nil => intro pt _; simp [splitBang]
  | cons c t' ih =>
    intro pt hpt
    by_cases hc : c = '!'
    · subst hc
      have h1 : (splitBang ('!' :: t')).1 = [] := by simp [splitBang]
      rw [h1]
      cases pt with
      | nil => simp
      | cons a pt' =>
        constructor
        · intro h
          have ha : a = '!' := (List.cons_prefix_cons.mp h).1
          exact absurd (ha ▸ List.mem_cons_self a pt') hpt
        · intro h
          exact absurd h (by simp)
    · have h1 : (splitBang (c :: t')).1 = c :: (splitBang t').1 := by simp [splitBang, hc]
      rw [h1]
      cases pt with
      | nil => simp
      | cons a pt' =>
        have hpt' : '!' ∉ pt' := fun hm => hpt (List.mem_cons_of_mem _ hm)
        rw [List.cons_prefix_cons, List.cons_prefix_cons, ih pt' hpt']

theorem replaceAllAux_splitBang (pt rt : List Char) (hpt : '!' ∉ pt) :
    ∀ (fuel : Nat) (s : List Char), s.length ≤ fuel →
      replaceAllAux '!' pt ('!' :: rt) fuel s
        = joinBang (splitBang s).1 ((splitBang s).2.map (segRepl pt rt)) := by
  intro fuel
  induction fuel with
  | zero =>
    intro s hs
    have h0 : s = [] := List.length_eq_zero.mp (Nat.le_zero.mp hs)
    subst h0
    rfl
  | succ fuel ih =>
    intro s hs
    cases s with
    | nil => rfl
    | cons c rest =>
      have hlen1 : rest.length ≤ fuel := by simpa using hs
      by_cases hc : c = '!'
      · subst hc
        have hsplit : splitBang ('!' :: rest)
            = ([], (splitBang rest).1 :: (splitBang rest).2) := by
          simp [splitBang]
        by_cases hfire : pt.isPrefixOf rest = true
        · have hfireP : pt <+: rest := List.isPrefixOf_iff_prefix.mp hfire
          have hchk : (('!' :: pt).isPrefixOf ('!' :: rest)) = true := by
            rw [List.isPrefixOf_cons₂]
            simp [hfire]
          have hstep : replaceAllAux '!' pt ('!' :: rt) (fuel + 1) ('!' :: rest)
              = ('!' :: rt) ++ replaceAllAux '!' pt ('!' :: rt) fuel (rest.drop pt.length) := by
            simp only [replaceAllAux, hchk, if_true, reduceIte]
          have hdroplen : (rest.drop pt.length).length ≤ fuel := by
            rw [List.length_drop]
            omega
          rw [hstep, ih _ hdroplen]
          have hfirePre : pt <+: (splitBang rest).1 := (pref_splitBang rest pt hpt).mp hfireP
          rw [splitBang_drop pt.length rest hfirePre.length_le, hsplit]
          have hsr : segRepl pt rt (splitBang rest).1
              = rt ++ (splitBang rest).1.drop pt.length := by
            simp only [segRepl, List.isPrefixOf_iff_prefix]
            rw [if_pos hfirePre]
          simp [joinBang, hsr, List.append_assoc]
        · have hfireP : ¬ (pt <+: rest) := fun h => hfire (List.isPrefixOf_iff_prefix.mpr h)
          have hchk : (('!' :: pt).isPrefixOf ('!' :: rest)) = false := by
            rw [List.isPrefixOf_cons₂]
            simp only [beq_self_eq_true, Bool.true_and]
            exact Bool.eq_false_iff.mpr (fun h => hfire h)
          have hstep : replaceAllAux '!' pt ('!' :: rt) (fuel + 1) ('!' :: rest)
              = '!' :: replaceAllAux '!' pt ('!' :: rt) fuel rest := by
            simp only [replaceAllAux, hchk, Bool.false_eq_true, if_false, reduceIte]
          rw [hstep, ih rest hlen1, hsplit]
          have hfirePre : ¬ (pt <+: (splitBang rest).1) :=
            fun h => hfireP ((pref_splitBang rest pt hpt).mpr h)
          have hsr : segRepl pt rt (splitBang rest).1 = (splitBang rest).1 := by
            simp only [segRepl, List.isPrefixOf_iff_prefix]
            rw [if_neg hfirePre]
          simp [joinBang, hsr]
      · have h1 : splitBang (c :: rest) = (c :: (splitBang rest).1, (splitBang rest).2) := by
          simp [splitBang, hc]
        have hchk : (('!' :: pt).isPrefixOf (c :: rest)) = false := by
          rw [List.isPrefixOf_cons₂]
          have : ('!' == c) = false := beq_eq_false_iff_ne.mpr (fun h => hc h.symm)
          simp [this]
        have hstep : replaceAllAux '!' pt ('!' :: rt) (fuel + 1) (c :: rest)
            = c :: replaceAllAux '!' pt ('!' :: rt) fuel rest := by
          simp only [replaceAllAux, hchk, Bool.false_eq_true, if_false, reduceIte]
        rw [hstep, ih rest hlen1, h1]
        simp [joinBang]


/-! ### Placeholder shapes and delimiter analysis -/

/-- The characters of `![id](id)` after the leading `!`. -/
def phTail (id : String) : List Char :=
  '[' :: (id.data ++ (']' :: ('(' :: (id.data ++ [')']))))

/-- The characters of `![id](data)` after the leading `!`. -/
def inTail (id dat : String) : List Char :=
  '[' :: (id.data ++ (']' :: ('(' :: (dat.data ++ [')']))))

theorem mdPlaceholder_data (id : String) : (mdPlaceholder id).data = '!' :: phTail id := by
  have h1 : "![".data = ['!', '['] := rfl
  have h2 : "](".data = [']', '('] := rfl
  have h3 : ")".data = [')'] := rfl
  simp [mdPlaceholder, phTail, string_data_append, h1, h2, h3]

theorem mdInlineRef_data (id dat : String) :
    (mdInlineRef id dat).data = '!' :: inTail id dat := by
  have h1 : "![".data = ['!', '['] := rfl
  have h2 : "](".data = [']', '('] := rfl
  have h3 : ")".data = [')'] := rfl
  simp [mdInlineRef, inTail, string_data_append, h1, h2, h3]

/-- An id is safe when it avoids the delimiter characters `!`, `]`, `:`
and the template-reference character `$` (real Mistral image ids such as
`img-0.jpeg` are safe). -/
def safeId (id : String) : Prop :=
  ∀ c ∈ id.data, c ≠ '!' ∧ c ≠ ']' ∧ c ≠ ':' ∧ c ≠ '$'

instance (id : String) : Decidable (safeId id) := by
  unfold safeId
  infer_instance

theorem phTail_bangfree (id : String) (h : safeId id) : '!' ∉ phTail id := by
  intro hm
  unfold phTail at hm
  rcases List.mem_cons.mp hm with h1 | h1
  · exact absurd h1.symm (by decide)
  · rcases List.mem_append.mp h1 with h2 | h2
    · exact (h '!' h2).1 rfl
    · rcases List.mem_cons.mp h2 with h3 | h3
      · exact absurd h3.symm (by decide)
      · rcases List.mem_cons.mp h3 with h4 | h4
        · exact absurd h4.symm (by decide)
        · rcases List.mem_append.mp h4 with h5 | h5
          · exact (h '!' h5).1 rfl
          · exact absurd (List.mem_singleton.mp h5).symm (by decide)

theorem inTail_bangfree (id dat : String) (hid : safeId id) (hdat : '!' ∉ dat.data) :
    '!' ∉ inTail id dat := by
  intro hm
  unfold inTail at hm
  rcases List.mem_cons.mp hm with h1 | h1
  · exact absurd h1.symm (by decide)
  · rcases List.mem_append.mp h1 with h2 | h2
    · exact (hid '!' h2).1 rfl
    · rcases List.mem_cons.mp h2 with h3 | h3
      · exact absurd h3.symm (by decide)
      · rcases List.mem_cons.mp h3 with h4 | h4
        · exact absurd h4.symm (by decide)
        · rcases List.mem_append.mp h4 with h5 | h5
          · exact hdat h5
          · exact absurd (List.mem_singleton.mp h5).symm (by decide)

theorem inTail_dollarfree (id dat : String) (hid : safeId id) (hdat : '$' ∉ dat.data) :
    '$' ∉ inTail id dat := by
  intro hm
  unfold inTail at hm
  rcases List.mem_cons.mp hm with h1 | h1
  · exact absurd h1.symm (by decide)
  · rcases List.mem_append.mp h1 with h2 | h2
    · exact (hid '$' h2).2.2.2 rfl
    · rcases List.mem_cons.mp h2 with h3 | h3
      · exact absurd h3.symm (by decide)
      · rcases List.mem_cons.mp h3 with h4 | h4
        · exact absurd h4.symm (by decide)
        · rcases List.mem_append.mp h4 with h5 | h5
          · exact hdat h5
          · exact absurd (List.mem_singleton.mp h5).symm (by decide)

theorem mdInlineRef_dollarfree (id dat : String) (hid : safeId id) (hdat : '$' ∉ dat.data) :
    '$' ∉ (mdInlineRef id dat).data := by
  rw [mdInlineRef_data]
  intro hm
  rcases List.mem_cons.mp hm with h1 | h1
  · exact absurd h1.symm (by decide)
  · exact inTail_dollarfree id dat hid hdat h1

theorem expandAux_dollarfree (m : List Char) :
    ∀ (fuel : Nat) (t : List Char), t.length ≤ fuel → '$' ∉ t →
      expandAux m fuel t = t := by
  intro fuel
  induction fuel with
  | zero =>
    intro t ht _
    have h0 : t = [] := List.length_eq_zero.mp (Nat.le_zero.mp ht)
    subst h0
    rfl
  | succ fuel ih =>
    intro t ht hd
    cases t with
    | nil => rfl
    | cons c rest =>
      have hc : ¬ (c = '$') := fun h => hd (h ▸ List.mem_cons_self c rest)
      have hrest : '$' ∉ rest := fun hm => hd (List.mem_cons_of_mem _ hm)
      simp only [expandAux]
      rw [if_neg hc, ih rest (by simpa using ht) hrest]

theorem expandTemplate_dollarfree (m t : List Char) (h : '$' ∉ t) :
    expandTemplate m t = t :=
  expandAux_dollarfree m t.length t (Nat.le_refl _) h

/-- If two lists agree on a prefix up to a marker character that occurs in
neither side before the marker, the parts before the markers coincide. -/
theorem seg_mark_eq (mark : Char) :
    ∀ (a b u v : List Char), mark ∉ a → mark ∉ b →
      ((a ++ (mark :: u)) <+: (b ++ (mark :: v))) → a = b ∧ u <+: v := by
  intro a
  induction a with
  | nil =>
    intro b u v _ hb h
    cases b with
    | nil =>
      simp only [List.nil_append] at h
      exact ⟨rfl, (List.cons_prefix_cons.mp h).2⟩
    | cons x b' =>
      simp only [List.nil_append, List.cons_append] at h
      have h1 : mark = x := (List.cons_prefix_cons.mp h).1
      exact absurd (by rw [h1]; exact List.mem_cons_self x b') hb
  | cons c a' ih =>
    intro b u v ha hb h
    cases b with
    | nil =>
      simp only [List.cons_append, List.nil_append] at h
      have h1 : c = mark := (List.cons_prefix_cons.mp h).1
      exact absurd (by rw [← h1]; exact List.mem_cons_self c a') ha
    | cons x b' =>
      simp only [List.cons_append] at h
      have h' := List.cons_prefix_cons.mp h
      obtain ⟨he, hpre⟩ := ih b' u v (fun hm => ha (List.mem_cons_of_mem _ hm))
        (fun hm => hb (List.mem_cons_of_mem _ hm)) h'.2
      exact ⟨by rw [h'.1, he], hpre⟩

/-- A `)`-terminated id cannot be a prefix of a text whose first `:` comes
before any `)`, when the id itself contains no `:`. -/
theorem colon_stop : ∀ (a p z : List Char), ':' ∉ a → ':' ∉ p → ')' ∉ p →
    ¬ ((a ++ [')']) <+: (p ++ (':' :: z))) := by
  intro a
  induction a with
  | nil =>
    intro p z _ hcp hrp h
    cases p with
    | nil =>
      simp only [List.nil_append] at h
      have h1 : (')' : Char) = ':' := (List.cons_prefix_cons.mp h).1
      exact absurd h1 (by decide)
    | cons x p' =>
      simp only [List.nil_append, List.cons_append] at h
      have h1 : (')' : Char) = x := (List.cons_prefix_cons.mp h).1
      exact hrp (by rw [h1]; exact List.mem_cons_self x p')
  | cons c a' ih =>
    intro p z ha hcp hrp h
    cases p with
    | nil =>
      simp only [List.cons_append, List.nil_append] at h
      have h1 : c = ':' := (List.cons_prefix_cons.mp h).1
      exact ha (by rw [← h1]; exact List.mem_cons_self c a')
    | cons x p' =>
      simp only [List.cons_append] at h
      have h' := List.cons_prefix_cons.mp h
      exact ih p' z (fun hm => ha (List.mem_cons_of_mem _ hm))
        (fun hm => hcp (List.mem_cons_of_mem _ hm))
        (fun hm => hrp (List.mem_cons_of_mem _ hm)) h'.2

/-- Core delimiter lemma: if `![a](a)`'s tail is a prefix of a bracketed
text `[bl](...)`, the ids coincide. -/
theorem phTail_pref_bracket (a : String) (bl v : List Char)
    (ha : ∀ c ∈ a.data, c ≠ ']') (hb : ∀ c ∈ bl, c ≠ ']')
    (h : phTail a <+: '[' :: (bl ++ (']' :: v))) :
    a.data = bl ∧ ('(' :: (a.data ++ [')'])) <+: v := by
  unfold phTail at h
  have h1 := (List.cons_prefix_cons.mp h).2
  exact seg_mark_eq ']' a.data bl _ v
    (fun hm => (ha ']' hm) rfl) (fun hm => (hb ']' hm) rfl) h1

theorem inTail_append_shape (b dat : String) (X : List Char) :
    inTail b dat ++ X = '[' :: (b.data ++ (']' :: ('(' :: (dat.data ++ (')' :: X))))) := by
  simp [inTail]

theorem phTail_append_shape (b : String) (X : List Char) :
    phTail b ++ X = '[' :: (b.data ++ (']' :: ('(' :: (b.data ++ (')' :: X))))) := by
  simp [phTail]

theorem phTail_shape (b : String) :
    phTail b = '[' :: (b.data ++ (']' :: ('(' :: (b.data ++ [')'])))) := rfl

/-- No placeholder of a safe id is a prefix of an inlined reference
followed by anything: the data URI's `data:` header stops the match. -/
theorem phTail_not_pref_inTail (a b dat : String) (X : List Char)
    (ha : safeId a) (hb : safeId b)
    (hdat : ∃ w, dat.data = 'd' :: 'a' :: 't' :: 'a' :: ':' :: w) :
    ¬ (phTail a <+: inTail b dat ++ X) := by
  intro h
  rw [inTail_append_shape] at h
  have hcore := phTail_pref_bracket a b.data ('(' :: (dat.data ++ (')' :: X)))
    (fun c hc => (ha c hc).2.1) (fun c hc => (hb c hc).2.1) h
  have h2 := (List.cons_prefix_cons.mp hcore.2).2
  obtain ⟨w, hw⟩ := hdat
  rw [hw] at h2
  have h3 : (a.data ++ [')']) <+: (['d', 'a', 't', 'a'] ++ (':' :: (w ++ (')' :: X)))) := by
    simpa using h2
  exact colon_stop a.data ['d', 'a', 't', 'a'] (w ++ (')' :: X))
    (fun hm => (ha ':' hm).2.2.1 rfl) (by decide) (by decide) h3

/-- Two placeholder tails that are prefixes of a common list have the same
id. -/
theorem phTail_pref_of_common (a b : String) (seg : List Char)
    (ha : safeId a) (hb : safeId b)
    (h1 : phTail a <+: seg) (h2 : phTail b <+: seg) : a.data = b.data := by
  rcases List.prefix_or_prefix_of_prefix h1 h2 with h | h
  · exact (phTail_pref_bracket a b.data _
      (fun c hc => (ha c hc).2.1) (fun c hc => (hb c hc).2.1) (phTail_shape b ▸ h)).1
  · exact ((phTail_pref_bracket b a.data _
      (fun c hc => (hb c hc).2.1) (fun c hc => (ha c hc).2.1) (phTail_shape a ▸ h)).1).symm

/-! ### The per-segment action of the whole entry fold -/

/-- What the sequence of per-entry replacements does to one `!`-segment. -/
def segStepF (entries : List (String × String)) (seg : List Char) : List Char :=
  entries.foldl (fun sg e => segRepl (phTail e.1) (inTail e.1 e.2) sg) seg

/-- Invariants of the id → data map entries: safe id, `!`- and `$`-free
payload, payload starting with `data:`. -/
def goodEntry (e : String × String) : Prop :=
  safeId e.1 ∧ '!' ∉ e.2.data ∧ '$' ∉ e.2.data
    ∧ ∃ w, e.2.data = 'd' :: 'a' :: 't' :: 'a' :: ':' :: w

theorem segRepl_bangfree (pt rt seg : List Char) (hrt : '!' ∉ rt) (hseg : '!' ∉ seg) :
    '!' ∉ segRepl pt rt seg := by
  unfold segRepl
  split
  · intro hm
    rcases List.mem_append.mp hm with h | h
    · exact hrt h
    · exact hseg (List.drop_subset _ _ h)
  · exact hseg

theorem segStepF_bangfree (entries : List (String × String))
    (hgood : ∀ e ∈ entries, goodEntry e) :
    ∀ seg, '!' ∉ seg → '!' ∉ segStepF entries seg := by
  induction entries with
  | nil => intro seg hseg; exact hseg
  | cons e es ih =>
    intro seg hseg
    have hge := hgood e (List.mem_cons_self _ _)
    exact ih (fun x hx => hgood x (List.mem_cons_of_mem _ hx)) _
      (segRepl_bangfree _ _ _ (inTail_bangfree e.1 e.2 hge.1 hge.2.1) hseg)

theorem segStepF_no_fire (entries : List (String × String)) :
    ∀ seg, (∀ e ∈ entries, ¬ (phTail e.1 <+: seg)) → segStepF entries seg = seg := by
  induction entries with
  | nil => intro seg _; rfl
  | cons e es ih =>
    intro seg h
    show segStepF es (segRepl (phTail e.1) (inTail e.1 e.2) seg) = seg
    have h0 : segRepl (phTail e.1) (inTail e.1 e.2) seg = seg := by
      unfold segRepl
      rw [if_neg]
      intro hx
      exact (h e (List.mem_cons_self _ _)) (List.isPrefixOf_iff_prefix.mp hx)
    rw [h0]
    exact ih seg (fun e' he' => h e' (List.mem_cons_of_mem _ he'))

theorem segStepF_fires (entries : List (String × String))
    (hgood : ∀ e ∈ entries, goodEntry e)
    (hkeys : (entries.map Prod.fst).Nodup) :
    ∀ seg e, e ∈ entries → (phTail e.1 <+: seg) →
      segStepF entries seg = inTail e.1 e.2 ++ seg.drop (phTail e.1).length := by
  induction entries with
  | nil => intro seg e he; cases he
  | cons e₀ es ih =>
    intro seg e he hfire
    have hge := hgood e he
    have hge0 := hgood e₀ (List.mem_cons_self _ _)
    by_cases h0 : phTail e₀.1 <+: seg
    · have he0 : e = e₀ := by
        rcases List.mem_cons.mp he with he' | he'
        · exact he'
        · exfalso
          have heq : e.1.data = e₀.1.data :=
            phTail_pref_of_common e.1 e₀.1 seg hge.1 hge0.1 hfire h0
          have hmem : e₀.1 ∈ es.map Prod.fst := by
            have hm : e.1 ∈ es.map Prod.fst := List.mem_map.mpr ⟨e, he', rfl⟩
            rwa [string_eq_of_data heq] at hm
          exact (List.nodup_cons.mp hkeys).1 hmem
      subst he0
      show segStepF es (segRepl (phTail e.1) (inTail e.1 e.2) seg) = _
      have hstep : segRepl (phTail e.1) (inTail e.1 e.2) seg
          = inTail e.1 e.2 ++ seg.drop (phTail e.1).length := by
        unfold segRepl
        rw [if_pos (List.isPrefixOf_iff_prefix.mpr hfire)]
      rw [hstep]
      apply segStepF_no_fire
      intro e' he' hcontra
      have hge' := hgood e' (List.mem_cons_of_mem _ he')
      rw [inTail_append_shape] at hcontra
      have heq : e'.1.data = e.1.data :=
        (phTail_pref_bracket e'.1 e.1.data _
          (fun c hc => (hge'.1 c hc).2.1) (fun c hc => (hge.1 c hc).2.1) hcontra).1
      have hmem : e.1 ∈ es.map Prod.fst := by
        have hm : e'.1 ∈ es.map Prod.fst := List.mem_map.mpr ⟨e', he', rfl⟩
        rwa [string_eq_of_data heq] at hm
      exact (List.nodup_cons.mp hkeys).1 hmem
    · have he' : e ∈ es := by
        rcases List.mem_cons.mp he with h1 | h1
        · exact absurd (h1 ▸ hfire) h0
        · exact h1
      show segStepF es (segRepl (phTail e₀.1) (inTail e₀.1 e₀.2) seg) = _
      have hstep : segRepl (phTail e₀.1) (inTail e₀.1 e₀.2) seg = seg := by
        unfold segRepl
        rw [if_neg]
        intro hx
        exact h0 (List.isPrefixOf_iff_prefix.mp hx)
      rw [hstep]
      exact ih (fun x hx => hgood x (List.mem_cons_of_mem _ hx))
        (List.nodup_cons.mp hkeys).2 seg e he' hfire

theorem segStepF_clears (entries : List (String × String))
    (hgood : ∀ e ∈ entries, goodEntry e)
    (hkeys : (entries.map Prod.fst).Nodup)
    (seg : List Char) (e : String × String) (he : e ∈ entries) :
    ¬ (phTail e.1 <+: segStepF entries seg) := by
  by_cases hex : ∃ e' ∈ entries, phTail e'.1 <+: seg
  · obtain ⟨e', he', hf⟩ := hex
    rw [segStepF_fires entries hgood hkeys seg e' he' hf]
    exact phTail_not_pref_inTail e.1 e'.1 e'.2 _
      (hgood e he).1 (hgood e' he').1 (hgood e' he').2.2.2
  · rw [segStepF_no_fire entries seg (fun e' he' hf => hex ⟨e', he', hf⟩)]
    intro hcontra
    exact hex ⟨e, he, hcontra⟩

theorem segStepF_preserves (entries : List (String × String))
    (hgood : ∀ e ∈ entries, goodEntry e)
    (hkeys : (entries.map Prod.fst).Nodup)
    (seg : List Char) (id : String)
    (hid : safeId id) (hnot : ∀ e ∈ entries, e.1 ≠ id) :
    (phTail id <+: segStepF entries seg) ↔ (phTail id <+: seg) := by
  by_cases hex : ∃ e' ∈ entries, phTail e'.1 <+: seg
  · obtain ⟨e', he', hf⟩ := hex
    have hge' := hgood e' he'
    rw [segStepF_fires entries hgood hkeys seg e' he' hf]
    constructor
    · intro hcontra
      rw [inTail_append_shape] at hcontra
      have heq : id.data = e'.1.data :=
        (phTail_pref_bracket id e'.1.data _
          (fun c hc => (hid c hc).2.1) (fun c hc => (hge'.1 c hc).2.1) hcontra).1
      exact absurd (string_eq_of_data heq).symm (hnot e' he')
    · intro hseg
      exfalso
      have heq : id.data = e'.1.data :=
        phTail_pref_of_common id e'.1 seg hid hge'.1 hseg hf
      exact absurd (string_eq_of_data heq).symm (hnot e' he')
  · rw [segStepF_no_fire entries seg (fun e' he' hf => hex ⟨e', he', hf⟩)]

/-! ### Composing the replacements over the whole content -/

theorem foldl_replaceAll_splitBang (entries : List (String × String))
    (hgood : ∀ e ∈ entries, goodEntry e) :
    ∀ content : List Char,
      entries.foldl (fun acc e => replaceAll ('!' :: phTail e.1) ('!' :: inTail e.1 e.2) acc)
          content
        = joinBang (splitBang content).1 ((splitBang content).2.map (segStepF entries)) := by
  induction entries with
  | nil =>
    intro content
    show content = joinBang _ ((splitBang content).2.map (segStepF []))
    have h0 : segStepF [] = fun seg : List Char => seg := by
      funext seg
      rfl
    have h1 : (splitBang content).2.map (segStepF []) = (splitBang content).2 := by
      rw [h0]
      simp
    rw [h1, joinBang_splitBang]
  | cons e es ih =>
    intro content
    have hge := hgood e (List.mem_cons_self _ _)
    have hges : ∀ x ∈ es, goodEntry x := fun x hx => hgood x (List.mem_cons_of_mem _ hx)
    have hpt : '!' ∉ phTail e.1 := phTail_bangfree e.1 hge.1
    have hrt : '!' ∉ inTail e.1 e.2 := inTail_bangfree e.1 e.2 hge.1 hge.2.1
    show es.foldl _ (replaceAll ('!' :: phTail e.1) ('!' :: inTail e.1 e.2) content) = _
    have hrepl : replaceAll ('!' :: phTail e.1) ('!' :: inTail e.1 e.2) content
        = joinBang (splitBang content).1
            ((splitBang content).2.map (segRepl (phTail e.1) (inTail e.1 e.2))) :=
      replaceAllAux_splitBang _ _ hpt content.length content (Nat.le_refl _)
    rw [hrepl, ih hges]
    have hsegs : ∀ seg ∈ (splitBang content).2.map (segRepl (phTail e.1) (inTail e.1 e.2)),
        '!' ∉ seg := by
      intro seg hseg
      obtain ⟨s0, hs0, hmap⟩ := List.mem_map.mp hseg
      rw [← hmap]
      exact segRepl_bangfree _ _ _ hrt ((splitBang_bangfree content).2 s0 hs0)
    rw [splitBang_joinBang _ _ (splitBang_bangfree content).1 hsegs]
    rw [List.map_map]
    rfl

/-! ### Membership in `joinBang` -/

theorem infix_extend_left (l s t : List Char) (h : l <:+: t) : l <:+: s ++ t := by
  obtain ⟨u, v, huv⟩ := h
  exact ⟨s ++ u, v, by rw [← huv]; simp [List.append_assoc]⟩

theorem bangInfix_cut (pre : List Char) (hpre : '!' ∉ pre) (pt Z : List Char)
    (h : ('!' :: pt) <:+: pre ++ ('!' :: Z)) : ('!' :: pt) <:+: ('!' :: Z) := by
  induction pre with
  | nil => simpa using h
  | cons c pre' ih =>
    rw [List.cons_append] at h
    rcases List.infix_cons_iff.mp h with h1 | h1
    · have h2 : '!' = c := (List.cons_prefix_cons.mp h1).1
      exact absurd (by rw [h2]; exact List.mem_cons_self c pre') hpre
    · exact ih (fun hm => hpre (List.mem_cons_of_mem _ hm)) h1

theorem joinBang_cons (pre : List Char) (s₁ : List Char) (rest : List (List Char)) :
    joinBang pre (s₁ :: rest) = pre ++ ('!' :: joinBang s₁ rest) := by
  simp [joinBang]

theorem bangInfix_joinBang (pt : List Char) (hpt : '!' ∉ pt) :
    ∀ (segs : List (List Char)) (pre : List Char), '!' ∉ pre → (∀ seg ∈ segs, '!' ∉ seg) →
      ((('!' :: pt) <:+: joinBang pre segs) ↔ ∃ seg ∈ segs, pt <+: seg) := by
  intro segs
  induction segs with
  | nil =>
    intro pre hpre _
    constructor
    · intro h
      obtain ⟨u, v, huv⟩ := h
      exfalso
      apply hpre
      rw [show joinBang pre [] = pre from by simp [joinBang]] at huv
      rw [← huv]
      simp
    · rintro ⟨seg, hseg, _⟩
      cases hseg
  | cons s₁ rest ih =>
    intro pre hpre hsegs
    have hs₁ : '!' ∉ s₁ := hsegs s₁ (List.mem_cons_self _ _)
    have hrest : ∀ s ∈ rest, '!' ∉ s := fun s hs => hsegs s (List.mem_cons_of_mem _ hs)
    rw [joinBang_cons]
    constructor
    · intro h
      have h1 := bangInfix_cut pre hpre pt (joinBang s₁ rest) h
      rcases List.infix_cons_iff.mp h1 with h2 | h2
      · have h3 : pt <+: joinBang s₁ rest := (List.cons_prefix_cons.mp h2).2
        have h4 : pt <+: s₁ := by
          have h5 := (pref_splitBang (joinBang s₁ rest) pt hpt).mp h3
          rwa [splitBang_joinBang s₁ rest hs₁ hrest] at h5
        exact ⟨s₁, List.mem_cons_self _ _, h4⟩
      · obtain ⟨seg, hs, hp⟩ := (ih s₁ hs₁ hrest).mp h2
        exact ⟨seg, List.mem_cons_of_mem _ hs, hp⟩
    · rintro ⟨seg, hseg, hp⟩
      rcases List.mem_cons.mp hseg with h1 | h1
      · subst h1
        apply infix_extend_left
        have h2 : ('!' :: pt) <+: ('!' :: joinBang seg rest) := by
          rw [List.cons_prefix_cons]
          exact ⟨rfl, hp.trans (by unfold joinBang; exact List.prefix_append _ _)⟩
        exact h2.isInfix
      · have h2 := (ih s₁ hs₁ hrest).mpr ⟨seg, h1, hp⟩
        have h3 := infix_extend_left _ (pre ++ ['!']) _ h2
        simpa [List.append_assoc] using h3

theorem bang_seg_sub_joinBang (seg : List Char) :
    ∀ (segs : List (List Char)) (pre : List Char), seg ∈ segs →
      ('!' :: seg) <:+: joinBang pre segs := by
  intro segs
  induction segs with
  | nil => intro pre h; cases h
  | cons s₁ rest ih =>
    intro pre h
    rw [joinBang_cons]
    rcases List.mem_cons.mp h with h1 | h1
    · subst h1
      apply infix_extend_left
      have h2 : ('!' :: seg) <+: ('!' :: joinBang seg rest) := by
        rw [List.cons_prefix_cons]
        exact ⟨rfl, by unfold joinBang; exact List.prefix_append _ _⟩
      exact h2.isInfix
    · have h2 := infix_extend_left _ (pre ++ ['!']) _ (ih s₁ h1)
      simpa [List.append_assoc] using h2

/-! ### The image map entries -/

theorem ensureDataURI_shape (b : String) :
    ∃ w, (ensureDataURI b).data = 'd' :: 'a' :: 't' :: 'a' :: ':' :: w := by
  unfold ensureDataURI
  by_cases h : "data:".data.isPrefixOf b.data = true
  · rw [if_pos h]
    obtain ⟨w, hw⟩ := List.isPrefixOf_iff_prefix.mp h
    exact ⟨w, by rw [← hw]; rfl⟩
  · rw [if_neg h]
    refine ⟨"image/jpeg;base64,".data ++ b.data, ?_⟩
    have hlit : "data:image/jpeg;base64,".data
        = 'd' :: 'a' :: 't' :: 'a' :: ':' :: "image/jpeg;base64,".data := rfl
    rw [string_data_append, hlit]
    simp

theorem ensureDataURI_bangfree (b : String) (h : '!' ∉ b.data) :
    '!' ∉ (ensureDataURI b).data := by
  unfold ensureDataURI
  split
  · exact h
  · rw [string_data_append]
    intro hm
    rcases List.mem_append.mp hm with h1 | h1
    · exact absurd h1 (by decide)
    · exact h h1

theorem ensureDataURI_dollarfree (b : String) (h : '$' ∉ b.data) :
    '$' ∉ (ensureDataURI b).data := by
  unfold ensureDataURI
  split
  · exact h
  · rw [string_data_append]
    intro hm
    rcases List.mem_append.mp hm with h1 | h1
    · exact absurd h1 (by decide)
    · exact h h1

/-- The ids of the images that contribute to the map. -/
def imageKeys (images : List OCRResponse_Image) : List String :=
  images.filterMap fun img => if img.ImageBase64 = "" then none else some img.ID

/-- The map entries before deduplication, in image order. -/
def imageEntriesList (images : List OCRResponse_Image) : List (String × String) :=
  images.filterMap fun img =>
    if img.ImageBase64 = "" then none else some (img.ID, ensureDataURI img.ImageBase64)

theorem imageMapEntries_def (images : List OCRResponse_Image) :
    imageMapEntries images = (imageEntriesList images).foldl insertEntry [] := rfl

theorem imageEntriesList_keys (images : List OCRResponse_Image) :
    (imageEntriesList images).map Prod.fst = imageKeys images := by
  induction images with
  | nil => rfl
  | cons img rest ih =>
    by_cases h : img.ImageBase64 = ""
    · simpa [imageEntriesList, imageKeys, List.filterMap_cons, h] using ih
    · simpa [imageEntriesList, imageKeys, List.filterMap_cons, h] using ih

theorem mem_imageEntriesList {images : List OCRResponse_Image} {e : String × String}
    (he : e ∈ imageEntriesList images) :
    ∃ img ∈ images, img.ImageBase64 ≠ "" ∧ e = (img.ID, ensureDataURI img.ImageBase64) := by
  obtain ⟨img, hmem, hsome⟩ := List.mem_filterMap.mp he
  by_cases h : img.ImageBase64 = ""
  · rw [if_pos h] at hsome
    cases hsome
  · rw [if_neg h] at hsome
    exact ⟨img, hmem, h, (Option.some.inj hsome).symm⟩

theorem imageEntriesList_mem (images : List OCRResponse_Image) (img : OCRResponse_Image)
    (hmem : img ∈ images) (h : img.ImageBase64 ≠ "") :
    (img.ID, ensureDataURI img.ImageBase64) ∈ imageEntriesList images :=
  List.mem_filterMap.mpr ⟨img, hmem, by rw [if_neg h]⟩

theorem foldl_insertEntry_app :
    ∀ (l acc : List (String × String)),
      (((acc ++ l).map Prod.fst).Nodup) →
      l.foldl insertEntry acc = acc ++ l := by
  intro l
  induction l with
  | nil => intro acc _; simp
  | cons e l' ih =>
    intro acc h
    show l'.foldl insertEntry (insertEntry acc e) = acc ++ e :: l'
    have hnd := h
    rw [List.map_append, List.nodup_append] at hnd
    have hnotin : ¬ (acc.any (fun x => x.1 = e.1) = true) := by
      intro hany
      obtain ⟨x, hx, hxeq⟩ := List.any_eq_true.mp hany
      have hxe : x.1 = e.1 := of_decide_eq_true hxeq
      have h1 : e.1 ∈ acc.map Prod.fst := List.mem_map.mpr ⟨x, hx, hxe⟩
      have h2 : e.1 ∈ (e :: l').map Prod.fst := by simp
      exact hnd.2.2 h1 h2
    have hins : insertEntry acc e = acc ++ [e] := by
      unfold insertEntry
      rw [if_neg hnotin]
    rw [hins, ih (acc ++ [e]) (by simpa using h)]
    simp

theorem imageMapEntries_eq_list (images : List OCRResponse_Image)
    (h : (imageKeys images).Nodup) :
    imageMapEntries images = imageEntriesList images := by
  rw [imageMapEntries_def]
  have h2 := foldl_insertEntry_app (imageEntriesList images) []
    (by simpa [imageEntriesList_keys] using h)
  simpa using h2

theorem foldl_replaceAllStr_data (entries : List (String × String)) :
    ∀ c : String,
      (entries.foldl
          (fun acc e => replaceAllStr (mdPlaceholder e.1) (mdInlineRef e.1 e.2) acc) c).data
        = entries.foldl
            (fun acc e => replaceAll (mdPlaceholder e.1).data
              (expandTemplate (mdPlaceholder e.1).data (mdInlineRef e.1 e.2).data) acc)
            c.data := by
  induction entries with
  | nil => intro c; rfl
  | cons e es ih =>
    intro c
    show (es.foldl _ (replaceAllStr (mdPlaceholder e.1) (mdInlineRef e.1 e.2) c)).data = _
    rw [ih (replaceAllStr (mdPlaceholder e.1) (mdInlineRef e.1 e.2) c)]
    rfl

theorem bool_eq_false {b : Bool} (h : ¬ b = true) : b = false := by
  cases b
  · rfl
  · exact absurd rfl h

theorem bool_eq_of_iff {a b : Bool} (h : a = true ↔ b = true) : a = b := by
  cases a <;> cases b <;> simp_all

theorem substrOf_placeholder_iff (id : String) (hid : '!' ∉ phTail id) (s : String) :
    substrOf (mdPlaceholder id) s = true
      ↔ ∃ seg ∈ (splitBang s.data).2, phTail id <+: seg := by
  simp only [substrOf, decide_eq_true_eq, mdPlaceholder_data]
  have hiff := bangInfix_joinBang (phTail id) hid (splitBang s.data).2 (splitBang s.data).1
    (splitBang_bangfree s.data).1 (splitBang_bangfree s.data).2
  rw [joinBang_splitBang] at hiff
  exact hiff

/-! ## Claim theorems: image inlining -/

/-- C4 counterexample: the claim says every placeholder whose id matches a
known image identifier in the list is replaced with a data URI.  Here the
image list contains the id `img-0.jpeg`, but its `ImageBase64` is empty
(`include_image_base64` was off), so `replaceImageReferences` skips it
(`convert.go:89`) and the placeholder survives verbatim. -/
theorem replaceImageReferences_empty_payload_counterexample :
    replaceImageReferences true "see ![img-0.jpeg](img-0.jpeg) here" [⟨"img-0.jpeg", ""⟩]
      = "see ![img-0.jpeg](img-0.jpeg) here"
    ∧ substrOf (mdPlaceholder "img-0.jpeg")
        (replaceImageReferences true "see ![img-0.jpeg](img-0.jpeg) here"
          [⟨"img-0.jpeg", ""⟩])
      = true := by
  constructor
  · rfl
  · decide

/-- C4 (amended): with inlining enabled — for an image list whose ids avoid
the delimiter characters `!`, `]`, `:` and the template character `$`,
whose payloads contain neither `!` nor `$` (so the replacement template
has no `$`-references to expand), and whose non-empty-payload ids are
distinct — `replaceImageReferences`
(a) leaves no placeholder of an image with a non-empty base64 payload in
the output, (b) replaces an occurring placeholder by the inlined
`![id](data URI)` reference, and (c) leaves a placeholder of any other
safe id exactly where it was (present in the output iff present in the
input).  Images with an empty payload are skipped, per the
counterexample. -/
theorem replaceImageReferences_inlining (content : String)
    (images : List OCRResponse_Image)
    (hsafe : ∀ img ∈ images, safeId img.ID)
    (hbang : ∀ img ∈ images, '!' ∉ img.ImageBase64.data)
    (hdollar : ∀ img ∈ images, '$' ∉ img.ImageBase64.data)
    (hkeys : (imageKeys images).Nodup) :
    (∀ img ∈ images, img.ImageBase64 ≠ "" →
        substrOf (mdPlaceholder img.ID) (replaceImageReferences true content images) = false)
    ∧ (∀ img ∈ images, img.ImageBase64 ≠ "" →
        substrOf (mdPlaceholder img.ID) content = true →
        substrOf (mdInlineRef img.ID (ensureDataURI img.ImageBase64))
          (replaceImageReferences true content images) = true)
    ∧ (∀ id : String, safeId id →
        (∀ img ∈ images, img.ImageBase64 ≠ "" → img.ID ≠ id) →
        substrOf (mdPlaceholder id) (replaceImageReferences true content images)
          = substrOf (mdPlaceholder id) content) := by
  by_cases himgs : images = []
  · subst himgs
    refine ⟨by simp, by simp, ?_⟩
    intro id _ _
    rfl
  · have hlist : imageMapEntries images = imageEntriesList images :=
      imageMapEntries_eq_list images hkeys
    have hgood : ∀ e ∈ imageMapEntries images, goodEntry e := by
      intro e he
      rw [hlist] at he
      obtain ⟨img, hmem, hne, heq⟩ := mem_imageEntriesList he
      rw [heq]
      exact ⟨hsafe img hmem, ensureDataURI_bangfree _ (hbang img hmem),
        ensureDataURI_dollarfree _ (hdollar img hmem), ensureDataURI_shape _⟩
    have hK : ((imageMapEntries images).map Prod.fst).Nodup := by
      rw [hlist, imageEntriesList_keys]
      exact hkeys
    have hdata : (replaceImageReferences true content images).data
        = joinBang (splitBang content.data).1
            ((splitBang content.data).2.map (segStepF (imageMapEntries images))) := by
      unfold replaceImageReferences
      rw [if_neg (by simp [himgs])]
      rw [foldl_replaceAllStr_data]
      have hext : (imageMapEntries images).foldl
          (fun acc e => replaceAll (mdPlaceholder e.1).data
            (expandTemplate (mdPlaceholder e.1).data (mdInlineRef e.1 e.2).data) acc)
          content.data
          = (imageMapEntries images).foldl
              (fun acc e => replaceAll (mdPlaceholder e.1).data (mdInlineRef e.1 e.2).data acc)
              content.data := by
        apply List.foldl_ext
        intro acc e he
        have hg := hgood e he
        rw [expandTemplate_dollarfree _ _ (mdInlineRef_dollarfree e.1 e.2 hg.1 hg.2.2.1)]
      rw [hext]
      have hfun : (fun (acc : List Char) (e : String × String) =>
          replaceAll (mdPlaceholder e.1).data (mdInlineRef e.1 e.2).data acc)
          = fun acc e => replaceAll ('!' :: phTail e.1) ('!' :: inTail e.1 e.2) acc := by
        funext acc e
        rw [mdPlaceholder_data, mdInlineRef_data]
      rw [hfun]
      exact foldl_replaceAll_splitBang (imageMapEntries images) hgood content.data
    have hsegs' : ∀ seg ∈ (splitBang content.data).2.map (segStepF (imageMapEntries images)),
        '!' ∉ seg := by
      intro seg hseg
      obtain ⟨s0, hs0, hmap⟩ := List.mem_map.mp hseg
      rw [← hmap]
      exact segStepF_bangfree _ hgood s0 ((splitBang_bangfree content.data).2 s0 hs0)
    refine ⟨?_, ?_, ?_⟩
    · intro img hmem hne
      apply bool_eq_false
      intro htrue
      have hex := (substrOf_placeholder_iff img.ID
          (phTail_bangfree img.ID (hsafe img hmem))
          (replaceImageReferences true content images)).mp htrue
      rw [hdata, splitBang_joinBang _ _ (splitBang_bangfree content.data).1 hsegs'] at hex
      obtain ⟨seg, hseg, hpref'⟩ := hex
      obtain ⟨s0, hs0, hmap⟩ := List.mem_map.mp hseg
      rw [← hmap] at hpref'
      have hE : (img.ID, ensureDataURI img.ImageBase64) ∈ imageMapEntries images := by
        rw [hlist]
        exact imageEntriesList_mem images img hmem hne
      exact segStepF_clears _ hgood hK s0 (img.ID, ensureDataURI img.ImageBase64) hE hpref'
    · intro img hmem hne htrue
      obtain ⟨seg, hseg, hpref'⟩ := (substrOf_placeholder_iff img.ID
          (phTail_bangfree img.ID (hsafe img hmem)) content).mp htrue
      have hE : (img.ID, ensureDataURI img.ImageBase64) ∈ imageMapEntries images := by
        rw [hlist]
        exact imageEntriesList_mem images img hmem hne
      have hfired := segStepF_fires _ hgood hK seg
        (img.ID, ensureDataURI img.ImageBase64) hE hpref'
      simp only [substrOf, decide_eq_true_eq, mdInlineRef_data, hdata]
      have hmem2 : segStepF (imageMapEntries images) seg
          ∈ (splitBang content.data).2.map (segStepF (imageMapEntries images)) :=
        List.mem_map.mpr ⟨seg, hseg, rfl⟩
      have hsub := bang_seg_sub_joinBang (segStepF (imageMapEntries images) seg) _
        (splitBang content.data).1 hmem2
      have hpp : ('!' :: inTail img.ID (ensureDataURI img.ImageBase64))
          <+: ('!' :: segStepF (imageMapEntries images) seg) := by
        rw [List.cons_prefix_cons]
        exact ⟨rfl, by rw [hfired]; exact List.prefix_append _ _⟩
      exact hpp.isInfix.trans hsub
    · intro id hid hnot
      have hnot' : ∀ e ∈ imageMapEntries images, e.1 ≠ id := by
        intro e he
        rw [hlist] at he
        obtain ⟨img, hm, hne, heq⟩ := mem_imageEntriesList he
        rw [heq]
        exact hnot img hm hne
      apply bool_eq_of_iff
      rw [substrOf_placeholder_iff id (phTail_bangfree id hid),
        substrOf_placeholder_iff id (phTail_bangfree id hid)]
      rw [hdata, splitBang_joinBang _ _ (splitBang_bangfree content.data).1 hsegs']
      constructor
      · rintro ⟨seg, hseg, hpref'⟩
        obtain ⟨s0, hs0, hmap⟩ := List.mem_map.mp hseg
        rw [← hmap] at hpref'
        exact ⟨s0, hs0, (segStepF_preserves _ hgood hK s0 id hid hnot').mp hpref'⟩
      · rintro ⟨s0, hs0, hpref'⟩
        exact ⟨segStepF (imageMapEntries images) s0, List.mem_map.mpr ⟨s0, hs0, rfl⟩,
          (segStepF_preserves _ hgood hK s0 id hid hnot').mpr hpref'⟩

/-- A concrete image whose payload is the base64 text `QUJD`. -/
def imgW : OCRResponse_Image := ⟨"img-0.jpeg", "QUJD"⟩

theorem replaceImageReferences_inlining_witness :
    substrOf (mdPlaceholder "img-0.jpeg")
        (replaceImageReferences true "x ![img-0.jpeg](img-0.jpeg) y" [imgW]) = false
    ∧ substrOf (mdInlineRef "img-0.jpeg" (ensureDataURI "QUJD"))
        (replaceImageReferences true "x ![img-0.jpeg](img-0.jpeg) y" [imgW]) = true
    ∧ substrOf (mdPlaceholder "ghost")
        (replaceImageReferences true "x ![img-0.jpeg](img-0.jpeg) y" [imgW])
      = substrOf (mdPlaceholder "ghost") "x ![img-0.jpeg](img-0.jpeg) y" := by
  have h := replaceImageReferences_inlining "x ![img-0.jpeg](img-0.jpeg) y" [imgW]
    (by decide) (by decide) (by decide) (by decide)
  exact ⟨h.1 imgW (by decide) (by decide),
    h.2.1 imgW (by decide) (by decide) (by decide),
    h.2.2 "ghost" (by decide) (by decide)⟩
